import Mathlib

/-!
Verification of the `trying-food` repository: a shallow embedding of the
seed script (`seed.ts`, given as `src/unnamed/part_000`) and of the image
URL normalizer in `src/components/MenuCard.tsx`, together with theorems
settling the specification's claims about them.

Remote effects (the Appwrite document/file store, `fetch`) are modelled by
explicit environments that decide the outcome of each remote operation;
the functions themselves are direct translations of the TypeScript.
-/

namespace TryingFood

/-- The Appwrite configuration object (`appwriteConfig`): environment
supplied endpoint / project / bucket identifiers, treated as opaque
strings. -/
structure AppwriteConfig where
  endpoint : String
  projectId : String
  bucketId : String
deriving Repr, DecidableEq

/-- JS `s.startsWith(pre)` (on the character list, so that concrete
instances reduce in the kernel). -/
def strStartsWith (s pre : String) : Bool :=
  pre.toList.isPrefixOf s.toList

/-- JS `s.includes(sub)`: substring containment test. -/
def strIncludes (s sub : String) : Bool :=
  s.toList.tails.any fun t => sub.toList.isPrefixOf t

/-- `getImageUrl` from `MenuCard.tsx` (lines 12-32), translated branch by
branch: empty string passes through as empty (JS falsiness), full
`http://` / `https://` URLs pass through, strings containing
`/storage/buckets/` get `?project=` appended, nonempty strings without a
`/` are treated as bare file ids and expanded to a full view URL, and
everything else gets `?project=` appended. -/
def getImageUrl (cfg : AppwriteConfig) (url : String) : String :=
  if url = "" then ""
  else if strStartsWith url "http://" || strStartsWith url "https://" then url
  else if strIncludes url "/storage/buckets/" then
    url ++ "?project=" ++ cfg.projectId
  else if url.length > 0 && !(url.toList.contains '/') then
    cfg.endpoint ++ "/storage/buckets/" ++ cfg.bucketId ++ "/files/" ++ url
      ++ "/view?project=" ++ cfg.projectId
  else
    url ++ "?project=" ++ cfg.projectId

/-- What the card renders in the image slot. -/
inductive CardImage where
  | image (uri : String)
  | placeholder
deriving Repr, DecidableEq

/-- The image-slot choice of `MenuCard` (lines 43-54): render the image
when `imageUrl && !imageError` is truthy (a nonempty URL and no load
error), otherwise the static placeholder glyph. -/
def menuCardImage (cfg : AppwriteConfig) (image_url : String)
    (imageError : Bool) : CardImage :=
  let u := getImageUrl cfg image_url
  if u ≠ "" && !imageError then .image u else .placeholder

/-- A sample configuration used for concrete counterexamples and
witnesses. -/
def sampleCfg : AppwriteConfig :=
  { endpoint := "https://cloud.appwrite.io/v1", projectId := "p123",
    bucketId := "b456" }

/-! ## The image upload routine (`uploadImageToStorage`, seed.ts 71-156) -/

/-- JS `String.prototype.split(sep)` for a single-character separator,
on the character list of the string.  Always returns at least one
segment; splitting the empty string yields `[[]]`, as in JS. -/
def splitOnChar (c : Char) : List Char → List (List Char)
  | [] => [[]]
  | ch :: rest =>
    match splitOnChar c rest with
    | [] => [[ch]]
    | s :: ss => if ch = c then [] :: s :: ss else (ch :: s) :: ss

/-- JS `String.prototype.toLowerCase` (ASCII model). -/
def strToLower (s : String) : String :=
  ⟨s.toList.map Char.toLower⟩

/-- Line 107: `urlPath.split('.').pop()?.toLowerCase() || 'jpg'` — the
last dot-separated segment of the path, lowercased, with `'jpg'`
substituted when that segment is falsy (empty). -/
def extensionFromPath (p : String) : String :=
  let e := strToLower ⟨(splitOnChar '.' p.toList).getLastD []⟩
  if e = "" then "jpg" else e

/-- The suffix of `l` after the first occurrence of `sub`, or `none`
when `sub` does not occur. -/
def afterSubstr (sub : List Char) : List Char → Option (List Char)
  | [] => if sub.isEmpty then some [] else none
  | c :: rest =>
    if sub.isPrefixOf (c :: rest) then some ((c :: rest).drop sub.length)
    else afterSubstr sub rest

/-- Model of `new URL(url).pathname` for `scheme://host/path?query`
URLs: the part after the authority, up to a `?` or `#`. -/
def urlPathname (url : String) : String :=
  match afterSubstr "://".toList url.toList with
  | none => ""
  | some rest =>
    ⟨((rest.dropWhile (· ≠ '/')).takeWhile (· ≠ '?')).takeWhile (· ≠ '#')⟩

/-- Line 108: `` `${Date.now()}-${Math.random()...}.${extension}` ``,
with the timestamp and random part supplied by the environment. -/
def mkFilename (now : Nat) (rand : String) (ext : String) : String :=
  toString now ++ "-" ++ rand ++ "." ++ ext

/-- Model of `storage.getFileView(bucketId, fileId)`: the stable public
view URL of a stored file. -/
def getFileView (cfg : AppwriteConfig) (fid : Nat) : String :=
  cfg.endpoint ++ "/storage/buckets/" ++ cfg.bucketId ++ "/files/"
    ++ toString fid ++ "/view"

/-- The environment's outcome for one upload attempt: the fetch rejects
(network error / timeout), the response is non-2xx, or a blob is
obtained (possibly empty) and `storage.createFile` either succeeds or
fails. -/
inductive AttemptEnv where
  | netErr
  | respNotOk (status : Nat)
  | blobOk (btype : String) (size : Nat) (now : Nat) (rand : String)
      (createOk : Bool)
deriving Repr, DecidableEq

/-- Observable events of the upload routine, in program order. -/
inductive UploadEvent where
  | attemptStart (k : Nat)
  | validationFailed
  | fetchIssued
  | fetchFailed
  | emptyData
  | createFailed
  | fileCreated (fid : Nat) (filename : String)
  | wait (ms : Nat)
deriving Repr, DecidableEq

/-- The body of the `try` block for one attempt (lines 73-136): validate
the URL, fetch, check the response and blob, build the filename, create
the stored file, and return its view URL.  `freshId` is the identifier
the store assigns to a newly created file.  An error carries the events
that happened before the throw. -/
def tryAttempt (cfg : AppwriteConfig) (k : Nat) (imageUrl : String)
    (e : AttemptEnv) (freshId : Nat) :
    Except (List UploadEvent) (String × List UploadEvent) :=
  if imageUrl = "" || !(strStartsWith imageUrl "http") then
    .error [.attemptStart k, .validationFailed]
  else
    match e with
    | .netErr => .error [.attemptStart k, .fetchIssued, .fetchFailed]
    | .respNotOk _ => .error [.attemptStart k, .fetchIssued, .fetchFailed]
    | .blobOk _btype size now rand createOk =>
      if size = 0 then .error [.attemptStart k, .fetchIssued, .emptyData]
      else
        let ext := extensionFromPath (urlPathname imageUrl)
        let filename := mkFilename now rand ext
        if createOk then
          .ok (getFileView cfg freshId,
            [.attemptStart k, .fetchIssued, .fileCreated freshId filename])
        else
          .error [.attemptStart k, .fetchIssued, .createFailed]

/-- The retry loop (lines 72-155), written with `fuel` = the number of
attempts still allowed (`retries - attempt + 1`), so `fuel = 1` is the
final attempt.  On a failed non-final attempt, wait
`2 ^ attempt * 1000` ms and retry; on the final failure, return the
original URL (line 144).  Returns the result URL, the event trace, and
the id of the created file, if any. -/
def uploadGo (cfg : AppwriteConfig) (imageUrl : String)
    (env : Nat → AttemptEnv) (freshId : Nat) :
    Nat → Nat → String × List UploadEvent × Option Nat
  | _attempt, 0 => (imageUrl, [], none)
  | attempt, fuel + 1 =>
    match tryAttempt cfg attempt imageUrl (env attempt) freshId with
    | .ok (url, evs) => (url, evs, some freshId)
    | .error evs =>
      match fuel with
      | 0 => (imageUrl, evs, none)
      | _ + 1 =>
        let delay := 2 ^ attempt * 1000
        let rest := uploadGo cfg imageUrl env freshId (attempt + 1) fuel
        (rest.1, evs ++ .wait delay :: rest.2.1, rest.2.2)

/-- `uploadImageToStorage(imageUrl, retries = 3)`: the retry loop
starting at attempt 1 with the default 3 attempts of fuel. -/
def uploadImageToStorage (cfg : AppwriteConfig) (imageUrl : String)
    (env : Nat → AttemptEnv) (freshId : Nat) :
    String × List UploadEvent × Option Nat :=
  uploadGo cfg imageUrl env freshId 1 3

/-- An attempt fails iff validation rejects the URL or the environment
makes the fetch, the blob check or the file creation fail. -/
def attemptFails (imageUrl : String) (e : AttemptEnv) : Bool :=
  imageUrl = "" || !(strStartsWith imageUrl "http") ||
    (match e with
     | .netErr => true
     | .respNotOk _ => true
     | .blobOk _ size _ _ createOk => size = 0 || !createOk)

/-- The sub-trace of attempt starts (`inl k`) and waits (`inr ms`), in
order. -/
def attemptTimeline (evs : List UploadEvent) : List (Nat ⊕ Nat) :=
  evs.filterMap fun e =>
    match e with
    | .attemptStart k => some (.inl k)
    | .wait ms => some (.inr ms)
    | _ => none

theorem attemptTimeline_append (l1 l2 : List UploadEvent) :
    attemptTimeline (l1 ++ l2) = attemptTimeline l1 ++ attemptTimeline l2 :=
  List.filterMap_append l1 l2 _

theorem attemptTimeline_wait (ms : Nat) (l : List UploadEvent) :
    attemptTimeline (.wait ms :: l) = .inr ms :: attemptTimeline l := rfl

/-- A failing attempt produces an `error` whose events contain exactly
one attempt start and no waits. -/
theorem tryAttempt_error_of_fails (cfg : AppwriteConfig) (k : Nat)
    (url : String) (e : AttemptEnv) (fid : Nat)
    (h : attemptFails url e = true) :
    ∃ evs, tryAttempt cfg k url e fid = .error evs ∧
      attemptTimeline evs = [.inl k] := by
  by_cases hv : (url = "" || !(strStartsWith url "http")) = true
  · exact ⟨[.attemptStart k, .validationFailed], by simp [tryAttempt, hv],
      rfl⟩
  · simp only [Bool.not_eq_true] at hv
    cases e with
    | netErr =>
      exact ⟨[.attemptStart k, .fetchIssued, .fetchFailed],
        by simp [tryAttempt, hv], rfl⟩
    | respNotOk s =>
      exact ⟨[.attemptStart k, .fetchIssued, .fetchFailed],
        by simp [tryAttempt, hv], rfl⟩
    | blobOk t size now rand createOk =>
      simp only [attemptFails, hv, Bool.false_or] at h
      by_cases hs : size = 0
      · exact ⟨[.attemptStart k, .fetchIssued, .emptyData],
          by simp [tryAttempt, hv, hs], rfl⟩
      · have hc : createOk = false := by
          rcases Bool.or_eq_true_iff.mp h with h1 | h1
          · exact absurd (by exact_mod_cast of_decide_eq_true h1) hs
          · simpa using h1
        exact ⟨[.attemptStart k, .fetchIssued, .createFailed],
          by simp [tryAttempt, hv, hs, hc], rfl⟩

/-- **C1.** For every image URL for which every upload attempt fails,
`uploadImageToStorage` returns the original source URL unchanged,
stores no file, and its timeline is exactly three attempt starts with a
`2 ^ attempt * 1000` ms wait after each non-final failure (and none
after the last).  The routine returns normally — in the model its type
is total, mirroring the `return imageUrl` fallback on line 144. -/
theorem claim1_upload_all_attempts_fail (cfg : AppwriteConfig)
    (url : String) (env : Nat → AttemptEnv) (fid : Nat)
    (hfail : ∀ k, attemptFails url (env k) = true) :
    (uploadImageToStorage cfg url env fid).1 = url ∧
    (uploadImageToStorage cfg url env fid).2.2 = none ∧
    attemptTimeline (uploadImageToStorage cfg url env fid).2.1 =
      [.inl 1, .inr (2 ^ 1 * 1000), .inl 2, .inr (2 ^ 2 * 1000),
        .inl 3] := by
  obtain ⟨e1, he1, ht1⟩ := tryAttempt_error_of_fails cfg 1 url (env 1) fid
    (hfail 1)
  obtain ⟨e2, he2, ht2⟩ := tryAttempt_error_of_fails cfg 2 url (env 2) fid
    (hfail 2)
  obtain ⟨e3, he3, ht3⟩ := tryAttempt_error_of_fails cfg 3 url (env 3) fid
    (hfail 3)
  have hrun : uploadImageToStorage cfg url env fid =
      (url, e1 ++ .wait 2000 :: (e2 ++ .wait 4000 :: e3), none) := by
    unfold uploadImageToStorage
    simp [uploadGo, he1, he2, he3]
  refine ⟨by rw [hrun], by rw [hrun], ?_⟩
  rw [hrun]
  show attemptTimeline (e1 ++ .wait 2000 :: (e2 ++ .wait 4000 :: e3)) = _
  rw [attemptTimeline_append, attemptTimeline_wait, attemptTimeline_append,
    attemptTimeline_wait, ht1, ht2, ht3]
  rfl

/-- Witness for C1 at a concrete URL and an environment answering 404
on every attempt. -/
theorem claim1_witness :
    (∀ k : Nat, attemptFails "http://img.example/a.png"
        ((fun _ => AttemptEnv.respNotOk 404) k) = true) ∧
    ((uploadImageToStorage sampleCfg "http://img.example/a.png"
        (fun _ => AttemptEnv.respNotOk 404) 0).1 = "http://img.example/a.png" ∧
      (uploadImageToStorage sampleCfg "http://img.example/a.png"
        (fun _ => AttemptEnv.respNotOk 404) 0).2.2 = none ∧
      attemptTimeline (uploadImageToStorage sampleCfg
          "http://img.example/a.png" (fun _ => AttemptEnv.respNotOk 404)
          0).2.1 =
        [.inl 1, .inr (2 ^ 1 * 1000), .inl 2, .inr (2 ^ 2 * 1000),
          .inl 3]) :=
  ⟨fun _ => rfl,
    claim1_upload_all_attempts_fail sampleCfg "http://img.example/a.png"
      (fun _ => AttemptEnv.respNotOk 404) 0 (fun _ => rfl)⟩

/-- **C5.** For every input that is empty or does not begin with the
recognized scheme test (`startsWith('http')`, line 77), validation
fails on every attempt: the trace is exactly three
attempt-start/validation-failure pairs with the backoff waits, no fetch
is ever issued, no file is stored, and the original input is returned
unchanged. -/
theorem claim5_invalid_url_no_fetch (cfg : AppwriteConfig) (url : String)
    (env : Nat → AttemptEnv) (fid : Nat)
    (hbad : url = "" ∨ strStartsWith url "http" = false) :
    (uploadImageToStorage cfg url env fid).1 = url ∧
    (uploadImageToStorage cfg url env fid).2.2 = none ∧
    (uploadImageToStorage cfg url env fid).2.1 =
      [.attemptStart 1, .validationFailed, .wait 2000,
        .attemptStart 2, .validationFailed, .wait 4000,
        .attemptStart 3, .validationFailed] ∧
    UploadEvent.fetchIssued ∉ (uploadImageToStorage cfg url env fid).2.1 := by
  have hv : (url = "" || !(strStartsWith url "http")) = true := by
    rcases hbad with h | h <;> simp [h]
  have hta : ∀ k e, tryAttempt cfg k url e fid =
      .error [.attemptStart k, .validationFailed] := by
    intro k e; simp [tryAttempt, hv]
  have hrun : uploadImageToStorage cfg url env fid =
      (url, [.attemptStart 1, .validationFailed, .wait 2000,
        .attemptStart 2, .validationFailed, .wait 4000,
        .attemptStart 3, .validationFailed], none) := by
    unfold uploadImageToStorage
    simp [uploadGo, hta]
  refine ⟨by rw [hrun], by rw [hrun], by rw [hrun], ?_⟩
  rw [hrun]
  show UploadEvent.fetchIssued ∉
    ([.attemptStart 1, .validationFailed, .wait 2000,
      .attemptStart 2, .validationFailed, .wait 4000,
      .attemptStart 3, .validationFailed] : List UploadEvent)
  decide

/-- Witness for C5 at the empty string. -/
theorem claim5_witness :
    (("" : String) = "" ∨ strStartsWith "" "http" = false) ∧
    ((uploadImageToStorage sampleCfg "" (fun _ => AttemptEnv.netErr) 0).1
        = "" ∧
      (uploadImageToStorage sampleCfg "" (fun _ => AttemptEnv.netErr)
        0).2.2 = none ∧
      (uploadImageToStorage sampleCfg "" (fun _ => AttemptEnv.netErr)
        0).2.1 =
        [.attemptStart 1, .validationFailed, .wait 2000,
          .attemptStart 2, .validationFailed, .wait 4000,
          .attemptStart 3, .validationFailed] ∧
      UploadEvent.fetchIssued ∉
        (uploadImageToStorage sampleCfg "" (fun _ => AttemptEnv.netErr)
          0).2.1) :=
  ⟨Or.inl rfl,
    claim5_invalid_url_no_fetch sampleCfg "" (fun _ => AttemptEnv.netErr) 0
      (Or.inl rfl)⟩

/-! ### The filename extension (claim C6) -/

theorem splitOnChar_cons (c a : Char) (rest : List Char) :
    splitOnChar c (a :: rest) =
      match splitOnChar c rest with
      | [] => [[a]]
      | s :: ss => if a = c then [] :: s :: ss else (a :: s) :: ss := rfl

theorem splitOnChar_exists_cons (c : Char) (l : List Char) :
    ∃ s ss, splitOnChar c l = s :: ss := by
  cases l with
  | nil => exact ⟨[], [], rfl⟩
  | cons a rest =>
    rw [splitOnChar_cons]
    obtain ⟨s, ss, hss⟩ : ∃ s ss, splitOnChar c rest = s :: ss := by
      cases hr : splitOnChar c rest with
      | nil =>
        cases rest with
        | nil => simp [splitOnChar] at hr
        | cons b r2 =>
          rw [splitOnChar_cons] at hr
          rcases h2 : splitOnChar c r2 with _ | ⟨s2, ss2⟩ <;> rw [h2] at hr
          · simp at hr
          · by_cases hb : b = c <;> simp [hb] at hr
      | cons s ss => exact ⟨s, ss, rfl⟩
    rw [hss]
    by_cases h : a = c <;> simp [h]

theorem splitOnChar_ne_nil (c : Char) (l : List Char) :
    splitOnChar c l ≠ [] := by
  obtain ⟨s, ss, hss⟩ := splitOnChar_exists_cons c l
  simp [hss]

theorem splitOnChar_not_mem (c : Char) (l : List Char) (h : c ∉ l) :
    splitOnChar c l = [l] := by
  induction l with
  | nil => rfl
  | cons a rest ih =>
    have ha : a ≠ c := fun hac => h (hac ▸ List.mem_cons_self a rest)
    have hr : c ∉ rest := fun hm => h (List.mem_cons_of_mem a hm)
    rw [splitOnChar_cons, ih hr]
    simp [ha]

theorem splitOnChar_concat (c : Char) (l : List Char) :
    splitOnChar c (l ++ [c]) = splitOnChar c l ++ [[]] := by
  induction l with
  | nil => simp [splitOnChar]
  | cons a rest ih =>
    rw [List.cons_append, splitOnChar_cons, ih,
      splitOnChar_cons c a rest]
    obtain ⟨s, ss, hss⟩ := splitOnChar_exists_cons c rest
    rw [hss, List.cons_append]
    by_cases h : a = c <;> simp [h]

theorem two_le_splitOnChar_append (c : Char) (l m : List Char) :
    2 ≤ (splitOnChar c (l ++ c :: m)).length := by
  induction l with
  | nil =>
    rw [List.nil_append, splitOnChar_cons]
    obtain ⟨s, ss, hss⟩ := splitOnChar_exists_cons c m
    rw [hss]
    simp
  | cons a rest ih =>
    rw [List.cons_append, splitOnChar_cons]
    obtain ⟨s, ss, hss⟩ := splitOnChar_exists_cons c (rest ++ c :: m)
    rw [hss] at ih ⊢
    by_cases h : a = c
    · simp [h]
    · simpa [h] using ih

theorem getLastD_splitOnChar_append (c : Char) (l m : List Char) :
    (splitOnChar c (l ++ c :: m)).getLastD [] =
      (splitOnChar c m).getLastD [] := by
  induction l with
  | nil =>
    rw [List.nil_append, splitOnChar_cons]
    obtain ⟨s, ss, hss⟩ := splitOnChar_exists_cons c m
    rw [hss]
    simp
  | cons a rest ih =>
    rw [List.cons_append, splitOnChar_cons]
    obtain ⟨s, ss, hss⟩ := splitOnChar_exists_cons c (rest ++ c :: m)
    have hlen : 2 ≤ (s :: ss).length := by
      rw [← hss]; exact two_le_splitOnChar_append c rest m
    obtain ⟨s2, ss2, hss2⟩ : ∃ s2 ss2, ss = s2 :: ss2 := by
      cases ss with
      | nil => simp at hlen
      | cons s2 ss2 => exact ⟨s2, ss2, rfl⟩
    rw [hss, hss2] at ih ⊢
    by_cases h : a = c <;> simpa [h] using ih

theorem strToLower_eq_empty_iff (s : String) :
    strToLower s = "" ↔ s = "" := by
  cases s with
  | mk d =>
    show String.mk (d.map Char.toLower) = String.mk [] ↔
      String.mk d = String.mk []
    constructor
    · intro h
      have : d.map Char.toLower = [] := by injection h
      have : d = [] := by simpa using this
      rw [this]
    · intro h
      have : d = [] := by injection h
      simp [this]

/-- **C6 counterexample.**  The path `/photo` contains no `.` — hence no
extension — but the computed extension is the whole path `/photo`, not
the generic default `jpg`. -/
theorem claim6_counterexample :
    ('.' ∉ "/photo".toList) ∧ extensionFromPath "/photo" = "/photo" ∧
      ("/photo" : String) ≠ "jpg" := by
  decide

/-- **C6 amended.**  The extension is the lowercased final
dot-separated segment of the path; it defaults to `jpg` exactly when
that segment is empty — the path is empty or ends in a dot.  A path
containing no dot at all yields the entire lowercased path, not
`jpg`. -/
theorem claim6_extension_amended (p : String) :
    (p = "" → extensionFromPath p = "jpg")
    ∧ (∀ l : List Char, p.toList = l ++ ['.'] →
        extensionFromPath p = "jpg")
    ∧ (∀ l seg : List Char, p.toList = l ++ '.' :: seg → '.' ∉ seg →
        seg ≠ [] → extensionFromPath p = strToLower ⟨seg⟩)
    ∧ ('.' ∉ p.toList → p ≠ "" → extensionFromPath p = strToLower p) := by
  refine ⟨?_, ?_, ?_, ?_⟩
  · intro h; subst h; decide
  · intro l h
    unfold extensionFromPath
    rw [h, splitOnChar_concat, List.getLastD_concat]
    decide
  · intro l seg h hseg hne
    unfold extensionFromPath
    rw [h, getLastD_splitOnChar_append, splitOnChar_not_mem _ _ hseg]
    have : ([seg] : List (List Char)).getLastD [] = seg := rfl
    rw [this]
    have hnz : strToLower ⟨seg⟩ ≠ "" := fun hc => by
      have h3 : (⟨seg⟩ : String) = ⟨[]⟩ :=
        (strToLower_eq_empty_iff ⟨seg⟩).mp hc
      exact hne (by injection h3)
    simp [hnz]
  · intro hnm hne
    unfold extensionFromPath
    rw [splitOnChar_not_mem _ _ hnm]
    have h1 : ([p.toList] : List (List Char)).getLastD [] = p.toList := rfl
    rw [h1]
    have h2 : (⟨p.toList⟩ : String) = p := by cases p; rfl
    rw [h2]
    have hnz : strToLower p ≠ "" := fun hc =>
      hne ((strToLower_eq_empty_iff p).mp hc)
    simp [hnz]

/-- Witness for the amended C6 at the path `/a/b.PNG`, whose final
dot-segment `PNG` lowercases to `png`. -/
theorem claim6_amended_witness :
    ("/a/b.PNG".toList = ['/', 'a', '/', 'b'] ++ '.' :: ['P', 'N', 'G']) ∧
    ('.' ∉ ['P', 'N', 'G']) ∧ (['P', 'N', 'G'] ≠ ([] : List Char)) ∧
    extensionFromPath "/a/b.PNG" = strToLower ⟨['P', 'N', 'G']⟩ :=
  ⟨by decide, by decide, by decide,
    (claim6_extension_amended "/a/b.PNG").2.2.1 ['/', 'a', '/', 'b']
      ['P', 'N', 'G'] (by decide) (by decide) (by decide)⟩

/-! ### The image URL normalizer (claims C7, C10) -/

theorem strLength_pos (s : String) (h : s ≠ "") : 0 < s.length := by
  cases s with
  | mk d =>
    cases d with
    | nil => exact absurd rfl h
    | cons a l => simp [String.length]

/-- **C7 counterexample.**  The empty string carries no scheme, is not
a storage view path, and is not a bare file identifier with a
constructed view URL — yet `getImageUrl` returns it unchanged instead
of appending the access-project parameter (or constructing a view URL),
contradicting the claim's exhaustive case split over every input
string. -/
theorem claim7_counterexample :
    strStartsWith "" "http://" = false ∧
    strStartsWith "" "https://" = false ∧
    strIncludes "" "/storage/buckets/" = false ∧
    getImageUrl sampleCfg "" = "" ∧
    getImageUrl sampleCfg "" ≠ "" ++ "?project=" ++ sampleCfg.projectId ∧
    getImageUrl sampleCfg "" ≠ sampleCfg.endpoint ++ "/storage/buckets/"
      ++ sampleCfg.bucketId ++ "/files/" ++ "" ++ "/view?project="
      ++ sampleCfg.projectId := by
  decide

/-- **C7 amended.**  For every *nonempty* input: full `http(s)://`
values pass through unchanged; values containing `/storage/buckets/`
get the access-project parameter appended; bare file identifiers (no
`/`) expand to the constructed view URL; everything else gets the
parameter appended.  The empty string maps to the empty string. -/
theorem claim7_getImageUrl_amended (cfg : AppwriteConfig) (url : String) :
    ((strStartsWith url "http://" || strStartsWith url "https://") = true →
      getImageUrl cfg url = url)
    ∧ (url ≠ "" →
        (strStartsWith url "http://" || strStartsWith url "https://")
          = false →
        strIncludes url "/storage/buckets/" = true →
        getImageUrl cfg url = url ++ "?project=" ++ cfg.projectId)
    ∧ (url ≠ "" →
        (strStartsWith url "http://" || strStartsWith url "https://")
          = false →
        strIncludes url "/storage/buckets/" = false →
        url.toList.contains '/' = false →
        getImageUrl cfg url = cfg.endpoint ++ "/storage/buckets/"
          ++ cfg.bucketId ++ "/files/" ++ url ++ "/view?project="
          ++ cfg.projectId)
    ∧ (url ≠ "" →
        (strStartsWith url "http://" || strStartsWith url "https://")
          = false →
        strIncludes url "/storage/buckets/" = false →
        url.toList.contains '/' = true →
        getImageUrl cfg url = url ++ "?project=" ++ cfg.projectId)
    ∧ getImageUrl cfg "" = "" := by
  refine ⟨?_, ?_, ?_, ?_, rfl⟩
  · intro h
    have hne : url ≠ "" := by
      intro he
      subst he
      exact absurd h (by decide)
    simp [getImageUrl, hne, h]
  · intro hne h1 h2
    simp [getImageUrl, hne, h1, h2]
  · intro hne h1 h2 h3
    have hlp := strLength_pos url hne
    have h4 : '/' ∉ url.data := fun hm => by
      have h5 : url.data.elem '/' = false := h3
      rw [List.elem_iff.mpr hm] at h5
      exact Bool.true_eq_false.mp h5
    simp [getImageUrl, hne, h1, h2, h4, hlp]
  · intro hne h1 h2 h3
    have h4 : '/' ∈ url.data := List.elem_iff.mp h3
    simp [getImageUrl, hne, h1, h2, h4]

/-- Witness for the amended C7 on a bare file-identifier input. -/
theorem claim7_amended_witness :
    (("file123" : String) ≠ "") ∧
    ((strStartsWith "file123" "http://"
        || strStartsWith "file123" "https://") = false) ∧
    (strIncludes "file123" "/storage/buckets/" = false) ∧
    ("file123".toList.contains '/' = false) ∧
    getImageUrl sampleCfg "file123" = sampleCfg.endpoint
      ++ "/storage/buckets/" ++ sampleCfg.bucketId ++ "/files/"
      ++ "file123" ++ "/view?project=" ++ sampleCfg.projectId :=
  ⟨by decide, by decide, by decide, by decide,
    (claim7_getImageUrl_amended sampleCfg "file123").2.2.1 (by decide)
      (by decide) (by decide) (by decide)⟩

/-- **C10.**  For the empty image reference, `getImageUrl` returns the
empty string (not a constructed URL), and the card renders the static
placeholder glyph instead of an image, whatever the error flag. -/
theorem claim10_empty_image_placeholder (cfg : AppwriteConfig)
    (imageError : Bool) :
    getImageUrl cfg "" = "" ∧
    menuCardImage cfg "" imageError = .placeholder := by
  exact ⟨rfl, by simp [menuCardImage, getImageUrl]⟩

/-! ## The seed script data model (seed.ts lines 5-34) -/

/-- `interface Category` (lines 5-8). -/
structure Category where
  name : String
  description : String
deriving Repr, DecidableEq

/-- `interface Customization` (lines 10-14).  The created document
carries exactly these three fields (lines 198-202). -/
structure Customization where
  name : String
  price : Rat
  type : String
deriving Repr, DecidableEq

/-- `interface MenuItem` (lines 16-26). -/
structure MenuItem where
  name : String
  description : String
  image_url : String
  price : Rat
  rating : Rat
  calories : Nat
  protein : Nat
  category_name : String
  customizations : List String
deriving Repr, DecidableEq

/-- `interface DummyData` (lines 28-32): the static input dataset (the
`data.ts` module itself is not part of the sources, so the dataset is a
parameter). -/
structure DummyData where
  categories : List Category
  customizations : List Customization
  menu : List MenuItem
deriving Repr, DecidableEq

/-- The provenance of a stored menu image: the view URL of a managed
stored file (id `fid`), or the external fallback URL.  The string the
source stores in the document is recovered by `imageUrlOfRef`. -/
inductive ImageRef where
  | stored (fid : Nat)
  | external (url : String)
deriving Repr, DecidableEq

/-- The string form of an image reference, as stored by the source. -/
def imageUrlOfRef (cfg : AppwriteConfig) : ImageRef → String
  | .stored fid => getFileView cfg fid
  | .external u => u

/-- The menu document created at lines 229-243 (field `categories`
holds the resolved category document id). -/
structure MenuDoc where
  name : String
  description : String
  image : ImageRef
  price : Rat
  rating : Rat
  calories : Nat
  protein : Nat
  categories : Nat
deriving Repr, DecidableEq

/-- The join document created at lines 258-266. -/
structure MenuCusDoc where
  menu : Nat
  customizations : Nat
deriving Repr, DecidableEq

/-- The remote store: the four collections (documents paired with their
store-assigned ids), the storage bucket (file ids), and the fresh-id
counter. -/
structure Store where
  categories : List (Nat × Category)
  customizations : List (Nat × Customization)
  menu : List (Nat × MenuDoc)
  menuCus : List (Nat × MenuCusDoc)
  files : List Nat
  nextId : Nat
deriving Repr, DecidableEq

/-- The environment deciding the outcome of every remote operation of a
seed run: list/delete outcomes for the clear phase, per-index create
outcomes for each phase, per-(item, customization)-index join-create
outcomes, and the per-(item, attempt) fetch/upload outcomes. -/
structure SeedEnv where
  listCatsOk : Bool
  listCussOk : Bool
  listMenuOk : Bool
  listMenuCusOk : Bool
  listFilesOk : Bool
  delCatOk : Nat → Bool
  delCusOk : Nat → Bool
  delMenuOk : Nat → Bool
  delMenuCusOk : Nat → Bool
  delFileOk : Nat → Bool
  createCatOk : Nat → Bool
  createCusOk : Nat → Bool
  createMenuOk : Nat → Bool
  createJoinOk : Nat → Nat → Bool
  upload : Nat → Nat → AttemptEnv

/-- Observable events of a seed run, in program order.  Collections are
numbered 0 categories, 1 customizations, 2 menu, 3 menu-customizations,
4 storage bucket. -/
inductive SeedEvent where
  | clearedCollection (col : Nat)
  | clearedStorage
  | clearFailedEv (col : Nat)
  | createdCategory (name : String)
  | categoryFailed (name : String)
  | createdCustomization (name : String)
  | customizationFailed (name : String)
  | uploadTrace (i : Nat) (evs : List UploadEvent)
  | categoryMissing (i : Nat) (name : String)
  | createdMenu (i : Nat) (name : String)
  | menuFailed (i : Nat) (name : String)
  | cusMissingWarn (i : Nat) (name : String)
  | createdJoin (i : Nat) (name : String)
  | joinFailed (i : Nat) (name : String)
deriving Repr, DecidableEq

/-- Result of a seed run or one of its phases. -/
structure SeedRes where
  store : Store
  events : List SeedEvent
  ok : Bool
deriving Repr

/-- Result of a lookup-table building phase. -/
structure MapRes where
  store : Store
  map : List (String × Nat)
  events : List SeedEvent
  ok : Bool
deriving Repr

/-- `clearAll` (lines 36-53) on one collection: `listDocuments` may
fail (collection untouched); otherwise all deletions are issued
concurrently by `Promise.all` — every deletion is attempted regardless
of the others (no cancellation), the documents whose deletion failed
survive, and the phase reports success only when the listing and every
deletion succeeded. -/
def clearAll {α : Type} (listOk : Bool) (delOk : Nat → Bool)
    (docs : List (Nat × α)) : List (Nat × α) × Bool :=
  if listOk then
    (docs.filter (fun d => !(delOk d.1)), docs.all (fun d => delOk d.1))
  else (docs, false)

/-- `clearStorage` (lines 55-69): the same fan-out pattern on the file
bucket. -/
def clearStorage (listOk : Bool) (delOk : Nat → Bool)
    (files : List Nat) : List Nat × Bool :=
  if listOk then
    (files.filter (fun f => !(delOk f)), files.all delOk)
  else (files, false)

/-- Step 1 of `seed` (lines 162-168): clear the four collections and
then the storage bucket, in order, aborting at the first failure. -/
def clearPhase (env : SeedEnv) (s : Store) : SeedRes :=
  let r0 := clearAll env.listCatsOk env.delCatOk s.categories
  let s0 := { s with categories := r0.1 }
  if !r0.2 then ⟨s0, [.clearFailedEv 0], false⟩
  else
    let r1 := clearAll env.listCussOk env.delCusOk s0.customizations
    let s1 := { s0 with customizations := r1.1 }
    if !r1.2 then ⟨s1, [.clearedCollection 0, .clearFailedEv 1], false⟩
    else
      let r2 := clearAll env.listMenuOk env.delMenuOk s1.menu
      let s2 := { s1 with menu := r2.1 }
      if !r2.2 then
        ⟨s2, [.clearedCollection 0, .clearedCollection 1,
          .clearFailedEv 2], false⟩
      else
        let r3 := clearAll env.listMenuCusOk env.delMenuCusOk s2.menuCus
        let s3 := { s2 with menuCus := r3.1 }
        if !r3.2 then
          ⟨s3, [.clearedCollection 0, .clearedCollection 1,
            .clearedCollection 2, .clearFailedEv 3], false⟩
        else
          let r4 := clearStorage env.listFilesOk env.delFileOk s3.files
          let s4 := { s3 with files := r4.1 }
          if !r4.2 then
            ⟨s4, [.clearedCollection 0, .clearedCollection 1,
              .clearedCollection 2, .clearedCollection 3,
              .clearFailedEv 4], false⟩
          else
            ⟨s4, [.clearedCollection 0, .clearedCollection 1,
              .clearedCollection 2, .clearedCollection 3,
              .clearedStorage], true⟩

/-- Step 2 of `seed` (lines 170-187): sequentially create one document
per category, building the name→id lookup table
(`categoryMap[cat.name] = doc.$id`; the newest binding wins, modelled
by consing and first-match lookup); any failure aborts the run. -/
def createCategories (env : SeedEnv) :
    List Category → Nat → Store → List (String × Nat) → MapRes
  | [], _, s, m => ⟨s, m, [], true⟩
  | cat :: rest, idx, s, m =>
    if env.createCatOk idx then
      let id := s.nextId
      let s1 := { s with
        categories := s.categories ++ [(id, cat)],
        nextId := s.nextId + 1 }
      let r := createCategories env rest (idx + 1) s1 ((cat.name, id) :: m)
      ⟨r.store, r.map, .createdCategory cat.name :: r.events, r.ok⟩
    else ⟨s, m, [.categoryFailed cat.name], false⟩

/-- Step 3 of `seed` (lines 189-210): the same pattern for
customizations. -/
def createCustomizations (env : SeedEnv) :
    List Customization → Nat → Store → List (String × Nat) → MapRes
  | [], _, s, m => ⟨s, m, [], true⟩
  | cus :: rest, idx, s, m =>
    if env.createCusOk idx then
      let id := s.nextId
      let s1 := { s with
        customizations := s.customizations ++ [(id, cus)],
        nextId := s.nextId + 1 }
      let r := createCustomizations env rest (idx + 1) s1
        ((cus.name, id) :: m)
      ⟨r.store, r.map, .createdCustomization cus.name :: r.events, r.ok⟩
    else ⟨s, m, [.customizationFailed cus.name], false⟩

/-- Step 5 of `seed` (lines 249-273): for each listed customization
name, a missing lookup is warned about and skipped, a failed join
creation is logged and skipped; neither aborts. -/
def createJoins (env : SeedEnv) (cusMap : List (String × Nat))
    (i docId : Nat) : List String → Nat → Store → Store × List SeedEvent
  | [], _, s => (s, [])
  | nm :: rest, j, s =>
    match List.lookup nm cusMap with
    | none =>
      let r := createJoins env cusMap i docId rest (j + 1) s
      (r.1, .cusMissingWarn i nm :: r.2)
    | some cusId =>
      if env.createJoinOk i j then
        let jid := s.nextId
        let s1 := { s with
          menuCus := s.menuCus ++ [(jid, ⟨docId, cusId⟩)],
          nextId := s.nextId + 1 }
        let r := createJoins env cusMap i docId rest (j + 1) s1
        (r.1, .createdJoin i nm :: r.2)
      else
        let r := createJoins env cusMap i docId rest (j + 1) s
        (r.1, .joinFailed i nm :: r.2)

/-- One iteration of step 4 of `seed` (lines 216-278): upload the image
(line 222), *then* check the category lookup (line 225) — a missing
category throws after the upload already happened; then create the menu
document and its join records. -/
def processItem (cfg : AppwriteConfig) (env : SeedEnv)
    (catMap cusMap : List (String × Nat)) (i : Nat) (item : MenuItem)
    (s : Store) : SeedRes :=
  let up := uploadImageToStorage cfg item.image_url (env.upload i) s.nextId
  let s1 := match up.2.2 with
    | some fid => { s with
        files := s.files ++ [fid],
        nextId := s.nextId + 1 }
    | none => s
  let imgRef : ImageRef := match up.2.2 with
    | some fid => .stored fid
    | none => .external up.1
  match List.lookup item.category_name catMap with
  | none =>
    ⟨s1, [.uploadTrace i up.2.1, .categoryMissing i item.category_name],
      false⟩
  | some catId =>
    if env.createMenuOk i then
      let docId := s1.nextId
      let doc : MenuDoc := {
        name := item.name,
        description := item.description, image := imgRef,
        price := item.price, rating := item.rating,
        calories := item.calories, protein := item.protein,
        categories := catId }
      let s2 := { s1 with
        menu := s1.menu ++ [(docId, doc)],
        nextId := s1.nextId + 1 }
      let pj := createJoins env cusMap i docId item.customizations 0 s2
      ⟨pj.1, .uploadTrace i up.2.1 :: .createdMenu i item.name :: pj.2,
        true⟩
    else ⟨s1, [.uploadTrace i up.2.1, .menuFailed i item.name], false⟩

/-- Step 4 of `seed`: the sequential menu-item loop; the first failing
item aborts the phase. -/
def processItems (cfg : AppwriteConfig) (env : SeedEnv)
    (catMap cusMap : List (String × Nat)) :
    List MenuItem → Nat → Store → SeedRes
  | [], _, s => ⟨s, [], true⟩
  | item :: rest, i, s =>
    let r := processItem cfg env catMap cusMap i item s
    if r.ok then
      let r2 := processItems cfg env catMap cusMap rest (i + 1) r.store
      ⟨r2.store, r.events ++ r2.events, r2.ok⟩
    else ⟨r.store, r.events, false⟩

/-- `seed` (lines 158-291): clear everything, create categories, then
customizations, then menu items; the first fatal error aborts the run
(the outer catch rethrows), with no rollback of work already done. -/
def seed (cfg : AppwriteConfig) (data : DummyData) (env : SeedEnv)
    (s : Store) : SeedRes :=
  let c := clearPhase env s
  if !c.ok then ⟨c.store, c.events, false⟩
  else
    let p1 := createCategories env data.categories 0 c.store []
    if !p1.ok then ⟨p1.store, c.events ++ p1.events, false⟩
    else
      let p2 := createCustomizations env data.customizations 0 p1.store []
      if !p2.ok then
        ⟨p2.store, c.events ++ p1.events ++ p2.events, false⟩
      else
        let p3 := processItems cfg env p1.map p2.map data.menu 0 p2.store
        ⟨p3.store, c.events ++ p1.events ++ p2.events ++ p3.events,
          p3.ok⟩

/-! ### Phase classification of seed events -/

/-- The phase an event belongs to: 0 clear, 1 categories,
2 customizations, 3 menu items. -/
def phaseOf : SeedEvent → Nat
  | .clearedCollection _ => 0
  | .clearedStorage => 0
  | .clearFailedEv _ => 0
  | .createdCategory _ => 1
  | .categoryFailed _ => 1
  | .createdCustomization _ => 2
  | .customizationFailed _ => 2
  | _ => 3

theorem clearPhase_phase (env : SeedEnv) (s : Store) :
    ∀ e ∈ (clearPhase env s).events, phaseOf e = 0 := by
  intro e he
  simp only [clearPhase] at he
  split_ifs at he <;> simp at he <;> (try casesm* _ ∨ _) <;> subst_vars <;> rfl

theorem createCategories_phase (env : SeedEnv) (cats : List Category)
    (idx : Nat) (s : Store) (m : List (String × Nat)) :
    ∀ e ∈ (createCategories env cats idx s m).events, phaseOf e = 1 := by
  induction cats generalizing idx s m with
  | nil => intro e he; simp [createCategories] at he
  | cons cat rest ih =>
    intro e he
    unfold createCategories at he
    split_ifs at he <;> simp at he
    · rcases he with h | h
      · subst h; rfl
      · exact ih _ _ _ e h
    · subst he; rfl

theorem createCustomizations_phase (env : SeedEnv)
    (cuss : List Customization) (idx : Nat) (s : Store)
    (m : List (String × Nat)) :
    ∀ e ∈ (createCustomizations env cuss idx s m).events, phaseOf e = 2 := by
  induction cuss generalizing idx s m with
  | nil => intro e he; simp [createCustomizations] at he
  | cons cus rest ih =>
    intro e he
    unfold createCustomizations at he
    split_ifs at he <;> simp at he
    · rcases he with h | h
      · subst h; rfl
      · exact ih _ _ _ e h
    · subst he; rfl

theorem createJoins_phase (env : SeedEnv) (cusMap : List (String × Nat))
    (i docId : Nat) (names : List String) (j : Nat) (s : Store) :
    ∀ e ∈ (createJoins env cusMap i docId names j s).2, phaseOf e = 3 := by
  induction names generalizing j s with
  | nil => intro e he; simp [createJoins] at he
  | cons nm rest ih =>
    intro e he
    unfold createJoins at he
    rcases hl : List.lookup nm cusMap with _ | cusId <;> rw [hl] at he
    · simp at he
      rcases he with h | h
      · subst h; rfl
      · exact ih _ _ e h
    · split_ifs at he <;> simp at he <;>
        (rcases he with h | h
         · subst h; rfl
         · exact ih _ _ e h)

theorem processItem_phase (cfg : AppwriteConfig) (env : SeedEnv)
    (catMap cusMap : List (String × Nat)) (i : Nat) (item : MenuItem)
    (s : Store) :
    ∀ e ∈ (processItem cfg env catMap cusMap i item s).events,
      phaseOf e = 3 := by
  intro e he
  unfold processItem at he
  rcases hl : List.lookup item.category_name catMap with _ | catId <;>
    rw [hl] at he
  · simp at he
    rcases he with h | h <;> subst h <;> rfl
  · split_ifs at he <;> simp at he
    · rcases he with h | h | h
      · subst h; rfl
      · subst h; rfl
      · exact createJoins_phase env cusMap i _ item.customizations 0 _ e h
    · rcases he with h | h <;> subst h <;> rfl

theorem processItems_phase (cfg : AppwriteConfig) (env : SeedEnv)
    (catMap cusMap : List (String × Nat)) (items : List MenuItem)
    (base : Nat) (s : Store) :
    ∀ e ∈ (processItems cfg env catMap cusMap items base s).events,
      phaseOf e = 3 := by
  induction items generalizing base s with
  | nil => intro e he; simp [processItems] at he
  | cons item rest ih =>
    intro e he
    simp only [processItems] at he
    split_ifs at he <;> simp at he
    · rcases he with h | h
      · exact processItem_phase cfg env catMap cusMap base item s e h
      · exact ih _ _ e h
    · exact processItem_phase cfg env catMap cusMap base item s e he

/-! ### Aborting on an unresolvable category (claim C2) -/

theorem createJoins_no_createdMenu (env : SeedEnv)
    (cusMap : List (String × Nat)) (i docId : Nat) (names : List String)
    (j : Nat) (s : Store) (i' : Nat) (nm : String) :
    SeedEvent.createdMenu i' nm ∉ (createJoins env cusMap i docId names j s).2 := by
  induction names generalizing j s with
  | nil => simp [createJoins]
  | cons nm0 rest ih =>
    intro he
    unfold createJoins at he
    rcases hl : List.lookup nm0 cusMap with _ | cusId <;> rw [hl] at he
    · simp at he
      exact ih _ _ he
    · split_ifs at he <;> simp at he <;> exact ih _ _ he

theorem processItem_createdMenu_index (cfg : AppwriteConfig)
    (env : SeedEnv) (catMap cusMap : List (String × Nat)) (i : Nat)
    (item : MenuItem) (s : Store) (i' : Nat) (nm : String)
    (h : SeedEvent.createdMenu i' nm ∈
      (processItem cfg env catMap cusMap i item s).events) :
    i' = i := by
  unfold processItem at h
  rcases hl : List.lookup item.category_name catMap with _ | catId <;>
    rw [hl] at h
  · simp at h
  · split_ifs at h <;> simp at h
    · rcases h with ⟨h1, _⟩ | h
      · exact h1
      · exact absurd h (createJoins_no_createdMenu _ _ _ _ _ _ _ _ _)

/-- When the item's category name misses the lookup table, the item
step fails with exactly its upload trace and the missing-category
event. -/
theorem processItem_miss (cfg : AppwriteConfig) (env : SeedEnv)
    (catMap cusMap : List (String × Nat)) (i : Nat) (item : MenuItem)
    (s : Store)
    (hm : List.lookup item.category_name catMap = none) :
    (processItem cfg env catMap cusMap i item s).ok = false ∧
    (processItem cfg env catMap cusMap i item s).events =
      [.uploadTrace i (uploadImageToStorage cfg item.image_url
          (env.upload i) s.nextId).2.1,
        .categoryMissing i item.category_name] := by
  constructor <;> simp [processItem, hm]

/-- An item whose category name misses the table makes the menu phase
fail, and no menu record for it is ever created — whether the phase
aborts at that item or at an earlier one. -/
theorem processItems_abort_before (cfg : AppwriteConfig) (env : SeedEnv)
    (catMap cusMap : List (String × Nat)) :
    ∀ (items : List MenuItem) (base : Nat) (s : Store) (k : Nat)
      (hk : k < items.length),
    List.lookup (items.get ⟨k, hk⟩).category_name catMap = none →
    (processItems cfg env catMap cusMap items base s).ok = false ∧
    ∀ nm, SeedEvent.createdMenu (base + k) nm ∉
      (processItems cfg env catMap cusMap items base s).events := by
  intro items
  induction items with
  | nil => intro base s k hk; simp at hk
  | cons item rest ih =>
    intro base s k hk hmiss
    cases k with
    | zero =>
      have hm := processItem_miss cfg env catMap cusMap base item s hmiss
      simp only [processItems]
      rw [hm.1]
      refine ⟨by simp, ?_⟩
      intro nm
      simp [hm.2]
    | succ k2 =>
      have hk2 : k2 < rest.length := by
        simpa using Nat.lt_of_succ_lt_succ hk
      have hmiss2 : List.lookup (rest.get ⟨k2, hk2⟩).category_name
          catMap = none := hmiss
      cases hok : (processItem cfg env catMap cusMap base item s).ok with
      | false =>
        have hres : processItems cfg env catMap cusMap (item :: rest)
            base s = ⟨(processItem cfg env catMap cusMap base item s).store,
              (processItem cfg env catMap cusMap base item s).events,
              false⟩ := by
          simp [processItems, hok]
        rw [hres]
        refine ⟨rfl, ?_⟩
        intro nm hn
        simp only at hn
        have := processItem_createdMenu_index cfg env catMap cusMap base
          item s _ _ hn
        omega
      | true =>
        obtain ⟨hok2, hnm⟩ := ih (base + 1)
          (processItem cfg env catMap cusMap base item s).store k2 hk2
          hmiss2
        have hres : processItems cfg env catMap cusMap (item :: rest)
            base s = ⟨(processItems cfg env catMap cusMap rest (base + 1)
                (processItem cfg env catMap cusMap base item s).store).store,
              (processItem cfg env catMap cusMap base item s).events ++
                (processItems cfg env catMap cusMap rest (base + 1)
                  (processItem cfg env catMap cusMap base item s).store).events,
              (processItems cfg env catMap cusMap rest (base + 1)
                (processItem cfg env catMap cusMap base item s).store).ok⟩ := by
          simp [processItems, hok]
        rw [hres]
        refine ⟨hok2, ?_⟩
        intro nm hn
        simp only [List.mem_append] at hn
        rcases hn with hn | hn
        · have := processItem_createdMenu_index cfg env catMap cusMap base
            item s _ _ hn
          omega
        · have heq : base + (k2 + 1) = base + 1 + k2 := by omega
          rw [heq] at hn
          exact hnm nm hn

/-- **C2.**  For every menu item whose category name is absent from the
lookup table built by the (completed) category phase, the seed run
fails and that item's menu record is never created. -/
theorem claim2_missing_category_aborts (cfg : AppwriteConfig)
    (data : DummyData) (env : SeedEnv) (s : Store) (i : Nat)
    (hi : i < data.menu.length)
    (hclear : (clearPhase env s).ok = true)
    (hcats : (createCategories env data.categories 0
      (clearPhase env s).store []).ok = true)
    (hmiss : List.lookup (data.menu.get ⟨i, hi⟩).category_name
      (createCategories env data.categories 0
        (clearPhase env s).store []).map = none) :
    (seed cfg data env s).ok = false ∧
    ∀ nm, SeedEvent.createdMenu i nm ∉ (seed cfg data env s).events := by
  cases hcus : (createCustomizations env data.customizations 0
      (createCategories env data.categories 0
        (clearPhase env s).store []).store []).ok with
  | false =>
    have hres : seed cfg data env s =
        ⟨(createCustomizations env data.customizations 0
            (createCategories env data.categories 0
              (clearPhase env s).store []).store []).store,
          (clearPhase env s).events ++
            (createCategories env data.categories 0
              (clearPhase env s).store []).events ++
            (createCustomizations env data.customizations 0
              (createCategories env data.categories 0
                (clearPhase env s).store []).store []).events,
          false⟩ := by
      simp [seed, hclear, hcats, hcus]
    rw [hres]
    refine ⟨rfl, ?_⟩
    intro nm hn
    simp only [List.mem_append] at hn
    rcases hn with (hn | hn) | hn
    · have := clearPhase_phase env s _ hn
      simp [phaseOf] at this
    · have := createCategories_phase env data.categories 0
        (clearPhase env s).store [] _ hn
      simp [phaseOf] at this
    · have := createCustomizations_phase env data.customizations 0
        (createCategories env data.categories 0
          (clearPhase env s).store []).store [] _ hn
      simp [phaseOf] at this
  | true =>
    obtain ⟨hok3, hnm⟩ := processItems_abort_before cfg env
      (createCategories env data.categories 0
        (clearPhase env s).store []).map
      (createCustomizations env data.customizations 0
        (createCategories env data.categories 0
          (clearPhase env s).store []).store []).map
      data.menu 0
      (createCustomizations env data.customizations 0
        (createCategories env data.categories 0
          (clearPhase env s).store []).store []).store
      i hi hmiss
    simp only [Nat.zero_add] at hnm
    have hres : seed cfg data env s =
        ⟨(processItems cfg env
            (createCategories env data.categories 0
              (clearPhase env s).store []).map
            (createCustomizations env data.customizations 0
              (createCategories env data.categories 0
                (clearPhase env s).store []).store []).map
            data.menu 0
            (createCustomizations env data.customizations 0
              (createCategories env data.categories 0
                (clearPhase env s).store []).store []).store).store,
          (clearPhase env s).events ++
            (createCategories env data.categories 0
              (clearPhase env s).store []).events ++
            (createCustomizations env data.customizations 0
              (createCategories env data.categories 0
                (clearPhase env s).store []).store []).events ++
            (processItems cfg env
              (createCategories env data.categories 0
                (clearPhase env s).store []).map
              (createCustomizations env data.customizations 0
                (createCategories env data.categories 0
                  (clearPhase env s).store []).store []).map
              data.menu 0
              (createCustomizations env data.customizations 0
                (createCategories env data.categories 0
                  (clearPhase env s).store []).store []).store).events,
          (processItems cfg env
            (createCategories env data.categories 0
              (clearPhase env s).store []).map
            (createCustomizations env data.customizations 0
              (createCategories env data.categories 0
                (clearPhase env s).store []).store []).map
            data.menu 0
            (createCustomizations env data.customizations 0
              (createCategories env data.categories 0
                (clearPhase env s).store []).store []).store).ok⟩ := by
      simp [seed, hclear, hcats, hcus]
    rw [hres]
    refine ⟨hok3, ?_⟩
    intro nm hn
    simp only [List.mem_append] at hn
    rcases hn with ((hn | hn) | hn) | hn
    · have := clearPhase_phase env s _ hn
      simp [phaseOf] at this
    · have := createCategories_phase env data.categories 0
        (clearPhase env s).store [] _ hn
      simp [phaseOf] at this
    · have := createCustomizations_phase env data.customizations 0
        (createCategories env data.categories 0
          (clearPhase env s).store []).store [] _ hn
      simp [phaseOf] at this
    · exact hnm nm hn

/-! ### Concrete fixtures for witnesses -/

/-- An environment where every remote operation succeeds and every
image fetch yields a valid blob. -/
def allOkEnv : SeedEnv :=
  { listCatsOk := true, listCussOk := true, listMenuOk := true,
    listMenuCusOk := true, listFilesOk := true,
    delCatOk := fun _ => true, delCusOk := fun _ => true,
    delMenuOk := fun _ => true, delMenuCusOk := fun _ => true,
    delFileOk := fun _ => true,
    createCatOk := fun _ => true, createCusOk := fun _ => true,
    createMenuOk := fun _ => true, createJoinOk := fun _ _ => true,
    upload := fun _ _ => .blobOk "image/png" 7 100 "rr" true }

/-- The empty remote store. -/
def emptyStore : Store := ⟨[], [], [], [], [], 0⟩

/-- A dataset whose only menu item names a category (`"Zzz"`) that the
dataset does not define. -/
def missingCatData : DummyData :=
  { categories := [⟨"Pizza", "pies"⟩],
    customizations := [⟨"Extra Cheese", 1, "topping"⟩],
    menu := [⟨"Margherita", "d", "http://img/m.png", 10, 4, 500, 20,
      "Zzz", ["Extra Cheese"]⟩] }

theorem missingCatData_one_item : 0 < missingCatData.menu.length := by
  decide

/-- Witness for C2 on `missingCatData`. -/
theorem claim2_witness :
    ((clearPhase allOkEnv emptyStore).ok = true) ∧
    ((createCategories allOkEnv missingCatData.categories 0
      (clearPhase allOkEnv emptyStore).store []).ok = true) ∧
    (List.lookup (missingCatData.menu.get
        ⟨0, missingCatData_one_item⟩).category_name
      (createCategories allOkEnv missingCatData.categories 0
        (clearPhase allOkEnv emptyStore).store []).map = none) ∧
    ((seed sampleCfg missingCatData allOkEnv emptyStore).ok = false ∧
      ∀ nm, SeedEvent.createdMenu 0 nm ∉
        (seed sampleCfg missingCatData allOkEnv emptyStore).events) :=
  ⟨rfl, rfl, rfl,
    claim2_missing_category_aborts sampleCfg missingCatData allOkEnv
      emptyStore 0 missingCatData_one_item rfl rfl rfl⟩

/-! ### Join-record semantics (claims C3, C9) -/

/-- The join documents the join loop is expected to create: one per
listed customization name that resolves in the lookup table and whose
creation the environment lets succeed. -/
def expectedJoins (env : SeedEnv) (cusMap : List (String × Nat))
    (i docId : Nat) : List String → Nat → List MenuCusDoc
  | [], _ => []
  | nm :: rest, j =>
    match List.lookup nm cusMap with
    | none => expectedJoins env cusMap i docId rest (j + 1)
    | some cusId =>
      if env.createJoinOk i j then
        ⟨docId, cusId⟩ :: expectedJoins env cusMap i docId rest (j + 1)
      else expectedJoins env cusMap i docId rest (j + 1)

/-- The join loop touches only `menuCus` and `nextId`: the other
collections and the bucket are unchanged, and the join documents added
are exactly `expectedJoins`. -/
theorem createJoins_store (env : SeedEnv) (cusMap : List (String × Nat))
    (i docId : Nat) (names : List String) (j : Nat) (s : Store) :
    (createJoins env cusMap i docId names j s).1.menu = s.menu ∧
    (createJoins env cusMap i docId names j s).1.categories =
      s.categories ∧
    (createJoins env cusMap i docId names j s).1.customizations =
      s.customizations ∧
    (createJoins env cusMap i docId names j s).1.files = s.files ∧
    (createJoins env cusMap i docId names j s).1.menuCus.map Prod.snd =
      s.menuCus.map Prod.snd ++ expectedJoins env cusMap i docId names j ∧
    (createJoins env cusMap i docId names j s).1.nextId =
      s.nextId + (expectedJoins env cusMap i docId names j).length := by
  induction names generalizing j s with
  | nil => simp [createJoins, expectedJoins]
  | cons nm rest ih =>
    unfold createJoins expectedJoins
    rcases hl : List.lookup nm cusMap with _ | cusId
    · simpa using ih (j + 1) s
    · split_ifs with hj
      · have := ih (j + 1) { s with
          menuCus := s.menuCus ++ [(s.nextId, ⟨docId, cusId⟩)],
          nextId := s.nextId + 1 }
        simp at this ⊢
        refine ⟨this.1, this.2.1, this.2.2.1, this.2.2.2.1, ?_, ?_⟩
        · rw [this.2.2.2.2.1]
        · rw [this.2.2.2.2.2]
          omega
      · simpa using ih (j + 1) s

/-- A listed name missing from the table yields a warning event. -/
theorem createJoins_warn (env : SeedEnv) (cusMap : List (String × Nat))
    (i docId : Nat) (names : List String) (j : Nat) (s : Store)
    (nm : String) (hmem : nm ∈ names)
    (hm : List.lookup nm cusMap = none) :
    SeedEvent.cusMissingWarn i nm ∈
      (createJoins env cusMap i docId names j s).2 := by
  induction names generalizing j s with
  | nil => simp at hmem
  | cons nm0 rest ih =>
    unfold createJoins
    rcases List.mem_cons.mp hmem with heq | hmem2
    · subst heq
      rw [hm]
      simp
    · rcases hl : List.lookup nm0 cusMap with _ | cusId
      · exact List.mem_cons_of_mem _ (ih (j + 1) s hmem2)
      · split_ifs with hj
        · exact List.mem_cons_of_mem _ (ih (j + 1) _ hmem2)
        · exact List.mem_cons_of_mem _ (ih (j + 1) s hmem2)

/-- A resolvable name whose join creation fails yields a logged-failure
event. -/
theorem createJoins_fail_logged (env : SeedEnv)
    (cusMap : List (String × Nat)) (i docId : Nat) (names : List String)
    (j : Nat) (s : Store) :
    ∀ (k : Nat) (hk : k < names.length) (cid : Nat),
    List.lookup (names.get ⟨k, hk⟩) cusMap = some cid →
    env.createJoinOk i (j + k) = false →
    SeedEvent.joinFailed i (names.get ⟨k, hk⟩) ∈
      (createJoins env cusMap i docId names j s).2 := by
  induction names generalizing j s with
  | nil => intro k hk; simp at hk
  | cons nm0 rest ih =>
    intro k hk cid hcid hjf
    unfold createJoins
    cases k with
    | zero =>
      simp only [List.get] at hcid ⊢
      rw [hcid]
      have hjf0 : env.createJoinOk i j = false := by simpa using hjf
      rw [hjf0]
      simp
    | succ k2 =>
      have hk2 : k2 < rest.length := by simpa using Nat.lt_of_succ_lt_succ hk
      simp only [List.get] at hcid ⊢
      have hjf2 : env.createJoinOk i (j + 1 + k2) = false := by
        have : j + 1 + k2 = j + (k2 + 1) := by omega
        rw [this]; exact hjf
      rcases hl : List.lookup nm0 cusMap with _ | cusId
      · exact List.mem_cons_of_mem _ (ih (j + 1) s k2 hk2 cid hcid hjf2)
      · split_ifs with hj
        · exact List.mem_cons_of_mem _ (ih (j + 1) _ k2 hk2 cid hcid hjf2)
        · exact List.mem_cons_of_mem _ (ih (j + 1) s k2 hk2 cid hcid hjf2)

/-- The image reference the menu document records for item `i`: the
stored file when the upload created one, the fallback original URL
otherwise. -/
def uploadedRef (cfg : AppwriteConfig) (env : SeedEnv) (i : Nat)
    (item : MenuItem) (s : Store) : ImageRef :=
  match (uploadImageToStorage cfg item.image_url (env.upload i)
      s.nextId).2.2 with
  | some fid => .stored fid
  | none =>
    .external (uploadImageToStorage cfg item.image_url (env.upload i)
      s.nextId).1

/-- The menu document created for item `i` (lines 229-243). -/
def menuDocOf (cfg : AppwriteConfig) (env : SeedEnv) (i : Nat)
    (item : MenuItem) (s : Store) (catId : Nat) : MenuDoc :=
  ⟨item.name, item.description, uploadedRef cfg env i item s, item.price,
    item.rating, item.calories, item.protein, catId⟩

/-- **C3.**  For a menu item whose category resolves and whose record
creation succeeds: the item step succeeds no matter what happens to its
customizations; the menu record is created; the join records added are
exactly the resolvable customizations whose creation succeeded
(`expectedJoins`); every unresolvable listed name produces a warning
event; and every resolvable name whose join creation fails produces a
logged-failure event — none of this aborts the run. -/
theorem claim3_join_semantics (cfg : AppwriteConfig) (env : SeedEnv)
    (catMap cusMap : List (String × Nat)) (i : Nat) (item : MenuItem)
    (s : Store) (catId : Nat)
    (hcat : List.lookup item.category_name catMap = some catId)
    (hok : env.createMenuOk i = true) :
    (processItem cfg env catMap cusMap i item s).ok = true ∧
    (∃ docId,
      (processItem cfg env catMap cusMap i item s).store.menu =
        s.menu ++ [(docId, menuDocOf cfg env i item s catId)] ∧
      (processItem cfg env catMap cusMap i item s).store.menuCus.map
          Prod.snd =
        s.menuCus.map Prod.snd ++
          expectedJoins env cusMap i docId item.customizations 0) ∧
    (∀ nm ∈ item.customizations, List.lookup nm cusMap = none →
      SeedEvent.cusMissingWarn i nm ∈
        (processItem cfg env catMap cusMap i item s).events) ∧
    (∀ (k : Nat) (hk : k < item.customizations.length) (cid : Nat),
      List.lookup (item.customizations.get ⟨k, hk⟩) cusMap = some cid →
      env.createJoinOk i k = false →
      SeedEvent.joinFailed i (item.customizations.get ⟨k, hk⟩) ∈
        (processItem cfg env catMap cusMap i item s).events) := by
  rcases hup : (uploadImageToStorage cfg item.image_url (env.upload i)
      s.nextId).2.2 with _ | fid
  · have href : uploadedRef cfg env i item s =
        .external (uploadImageToStorage cfg item.image_url (env.upload i)
          s.nextId).1 := by
      simp [uploadedRef, hup]
    have hres : processItem cfg env catMap cusMap i item s =
        ⟨(createJoins env cusMap i s.nextId item.customizations 0
            { s with
              menu := s.menu ++
                [(s.nextId, menuDocOf cfg env i item s catId)],
              nextId := s.nextId + 1 }).1,
          .uploadTrace i (uploadImageToStorage cfg item.image_url
              (env.upload i) s.nextId).2.1 ::
            .createdMenu i item.name ::
            (createJoins env cusMap i s.nextId item.customizations 0
              { s with
                menu := s.menu ++
                  [(s.nextId, menuDocOf cfg env i item s catId)],
                nextId := s.nextId + 1 }).2,
          true⟩ := by
      simp [processItem, hcat, hok, hup, menuDocOf, href]
    obtain ⟨hmenu, _, _, _, hmc, _⟩ := createJoins_store env cusMap i
      s.nextId item.customizations 0
      { s with
        menu := s.menu ++ [(s.nextId, menuDocOf cfg env i item s catId)],
        nextId := s.nextId + 1 }
    rw [hres]
    refine ⟨rfl, ⟨s.nextId, ?_, ?_⟩, ?_, ?_⟩
    · rw [hmenu]
    · rw [hmc]
    · intro nm hmem hm
      exact List.mem_cons_of_mem _ (List.mem_cons_of_mem _
        (createJoins_warn env cusMap i s.nextId item.customizations 0 _
          nm hmem hm))
    · intro k hk cid hcid hjf
      have hjf0 : env.createJoinOk i (0 + k) = false := by
        simpa using hjf
      exact List.mem_cons_of_mem _ (List.mem_cons_of_mem _
        (createJoins_fail_logged env cusMap i s.nextId
          item.customizations 0 _ k hk cid hcid hjf0))
  · have href : uploadedRef cfg env i item s = .stored fid := by
      simp [uploadedRef, hup]
    have hres : processItem cfg env catMap cusMap i item s =
        ⟨(createJoins env cusMap i (s.nextId + 1) item.customizations 0
            { s with
              files := s.files ++ [fid],
              menu := s.menu ++
                [(s.nextId + 1, menuDocOf cfg env i item s catId)],
              nextId := s.nextId + 1 + 1 }).1,
          .uploadTrace i (uploadImageToStorage cfg item.image_url
              (env.upload i) s.nextId).2.1 ::
            .createdMenu i item.name ::
            (createJoins env cusMap i (s.nextId + 1)
              item.customizations 0
              { s with
                files := s.files ++ [fid],
                menu := s.menu ++
                  [(s.nextId + 1, menuDocOf cfg env i item s catId)],
                nextId := s.nextId + 1 + 1 }).2,
          true⟩ := by
      simp [processItem, hcat, hok, hup, menuDocOf, href]
    obtain ⟨hmenu, _, _, _, hmc, _⟩ := createJoins_store env cusMap i
      (s.nextId + 1) item.customizations 0
      { s with
        files := s.files ++ [fid],
        menu := s.menu ++
          [(s.nextId + 1, menuDocOf cfg env i item s catId)],
        nextId := s.nextId + 1 + 1 }
    rw [hres]
    refine ⟨rfl, ⟨s.nextId + 1, ?_, ?_⟩, ?_, ?_⟩
    · rw [hmenu]
    · rw [hmc]
    · intro nm hmem hm
      exact List.mem_cons_of_mem _ (List.mem_cons_of_mem _
        (createJoins_warn env cusMap i (s.nextId + 1)
          item.customizations 0 _ nm hmem hm))
    · intro k hk cid hcid hjf
      have hjf0 : env.createJoinOk i (0 + k) = false := by
        simpa using hjf
      exact List.mem_cons_of_mem _ (List.mem_cons_of_mem _
        (createJoins_fail_logged env cusMap i (s.nextId + 1)
          item.customizations 0 _ k hk cid hcid hjf0))

/-- A menu item with a resolvable category (`"Pizza"`), one resolvable
customization and one unresolvable one (`"Nope"`). -/
def demoItem : MenuItem :=
  ⟨"Margherita", "d", "http://img/m.png", 10, 4, 500, 20, "Pizza",
    ["Extra Cheese", "Nope"]⟩

/-- Witness for C3: on `demoItem`, the step succeeds, warns about
`"Nope"`, and creates exactly the one resolvable join. -/
theorem claim3_witness :
    (List.lookup demoItem.category_name [("Pizza", 0)] = some 0) ∧
    (allOkEnv.createMenuOk 0 = true) ∧
    (processItem sampleCfg allOkEnv [("Pizza", 0)] [("Extra Cheese", 1)]
      0 demoItem emptyStore).ok = true ∧
    SeedEvent.cusMissingWarn 0 "Nope" ∈
      (processItem sampleCfg allOkEnv [("Pizza", 0)] [("Extra Cheese", 1)]
        0 demoItem emptyStore).events :=
  ⟨rfl, rfl,
    (claim3_join_semantics sampleCfg allOkEnv [("Pizza", 0)]
      [("Extra Cheese", 1)] 0 demoItem emptyStore 0 rfl rfl).1,
    (claim3_join_semantics sampleCfg allOkEnv [("Pizza", 0)]
      [("Extra Cheese", 1)] 0 demoItem emptyStore 0 rfl rfl).2.2.1
      "Nope" (by decide) rfl⟩

/-- **C9.**  The upload is invoked before the category-existence check
(line 222 before line 225): for an item with an unresolvable category
the event list is exactly the upload trace followed by the
missing-category failure, the step aborts without creating the menu
record, any file the upload stored remains in the bucket (an orphan),
and the menu loop stops there with that store. -/
theorem claim9_upload_precedes_category_check (cfg : AppwriteConfig)
    (env : SeedEnv) (catMap cusMap : List (String × Nat)) (i : Nat)
    (item : MenuItem) (s : Store) (rest : List MenuItem)
    (hmiss : List.lookup item.category_name catMap = none) :
    (processItem cfg env catMap cusMap i item s).ok = false ∧
    (processItem cfg env catMap cusMap i item s).events =
      [.uploadTrace i (uploadImageToStorage cfg item.image_url
          (env.upload i) s.nextId).2.1,
        .categoryMissing i item.category_name] ∧
    (∀ nm, SeedEvent.createdMenu i nm ∉
      (processItem cfg env catMap cusMap i item s).events) ∧
    (∀ fid, (uploadImageToStorage cfg item.image_url (env.upload i)
        s.nextId).2.2 = some fid →
      fid ∈ (processItem cfg env catMap cusMap i item s).store.files) ∧
    processItems cfg env catMap cusMap (item :: rest) i s =
      ⟨(processItem cfg env catMap cusMap i item s).store,
        (processItem cfg env catMap cusMap i item s).events, false⟩ := by
  have hm := processItem_miss cfg env catMap cusMap i item s hmiss
  refine ⟨hm.1, hm.2, ?_, ?_, ?_⟩
  · intro nm hn
    rw [hm.2] at hn
    simp at hn
  · intro fid hfid
    have hstore : (processItem cfg env catMap cusMap i item s).store =
        { s with files := s.files ++ [fid], nextId := s.nextId + 1 } := by
      simp [processItem, hmiss, hfid]
    rw [hstore]
    simp
  · simp [processItems, hm.1]

/-- Witness for C9: with all lookup tables empty, `demoItem` uploads
and stores file 0, then aborts on the missing category, leaving file 0
orphaned in the bucket. -/
theorem claim9_witness :
    (List.lookup demoItem.category_name ([] : List (String × Nat))
      = none) ∧
    ((uploadImageToStorage sampleCfg demoItem.image_url
      (allOkEnv.upload 0) emptyStore.nextId).2.2 = some 0) ∧
    (processItem sampleCfg allOkEnv [] [] 0 demoItem emptyStore).ok
      = false ∧
    0 ∈ (processItem sampleCfg allOkEnv [] [] 0 demoItem
      emptyStore).store.files :=
  ⟨rfl, rfl,
    (claim9_upload_precedes_category_check sampleCfg allOkEnv [] [] 0
      demoItem emptyStore [] rfl).1,
    (claim9_upload_precedes_category_check sampleCfg allOkEnv [] [] 0
      demoItem emptyStore [] rfl).2.2.2.1 0 rfl⟩

/-! ### Event counting and store evolution (claims C8, C4) -/

/-- Number of events in a trace satisfying `p`. -/
def countEv (p : SeedEvent → Bool) (evs : List SeedEvent) : Nat :=
  (evs.filter p).length

def isCreatedCategoryEv : SeedEvent → Bool
  | .createdCategory _ => true
  | _ => false

def isCreatedCustomizationEv : SeedEvent → Bool
  | .createdCustomization _ => true
  | _ => false

def isCreatedMenuEv : SeedEvent → Bool
  | .createdMenu _ _ => true
  | _ => false

def isCreatedJoinEv : SeedEvent → Bool
  | .createdJoin _ _ => true
  | _ => false

/-- The events that end a run: each corresponds to a thrown error. -/
def isFatalEv : SeedEvent → Bool
  | .clearFailedEv _ => true
  | .categoryFailed _ => true
  | .customizationFailed _ => true
  | .categoryMissing _ _ => true
  | .menuFailed _ _ => true
  | _ => false

theorem countEv_append (p : SeedEvent → Bool) (l1 l2 : List SeedEvent) :
    countEv p (l1 ++ l2) = countEv p l1 + countEv p l2 := by
  simp [countEv, List.filter_append]

theorem countEv_zero (p : SeedEvent → Bool) (l : List SeedEvent) :
    (∀ e ∈ l, p e = false) → countEv p l = 0 := by
  induction l with
  | nil => intro _; rfl
  | cons a l ih =>
    intro h
    have ha : p a = false := h a (List.mem_cons_self a l)
    have hl := ih fun e he => h e (List.mem_cons_of_mem a he)
    simp [countEv, List.filter_cons, ha] at hl ⊢
    exact hl

theorem countEv_cons_false (p : SeedEvent → Bool) (a : SeedEvent)
    (l : List SeedEvent) (h : p a = false) :
    countEv p (a :: l) = countEv p l := by
  simp [countEv, List.filter_cons, h]

theorem countEv_cons_true (p : SeedEvent → Bool) (a : SeedEvent)
    (l : List SeedEvent) (h : p a = true) :
    countEv p (a :: l) = countEv p l + 1 := by
  simp [countEv, List.filter_cons, h]

theorem isCreatedCategoryEv_phase (e : SeedEvent)
    (h : isCreatedCategoryEv e = true) : phaseOf e = 1 := by
  cases e <;> simp [isCreatedCategoryEv] at h <;> rfl

theorem isCreatedCustomizationEv_phase (e : SeedEvent)
    (h : isCreatedCustomizationEv e = true) : phaseOf e = 2 := by
  cases e <;> simp [isCreatedCustomizationEv] at h <;> rfl

theorem isCreatedMenuEv_phase (e : SeedEvent)
    (h : isCreatedMenuEv e = true) : phaseOf e = 3 := by
  cases e <;> simp [isCreatedMenuEv] at h <;> rfl

theorem isCreatedJoinEv_phase (e : SeedEvent)
    (h : isCreatedJoinEv e = true) : phaseOf e = 3 := by
  cases e <;> simp [isCreatedJoinEv] at h <;> rfl

/-- The category phase touches only the category collection and the id
counter; it adds exactly one document per `createdCategory` event. -/
theorem createCategories_evolution (env : SeedEnv) (cats : List Category)
    (idx : Nat) (s : Store) (m : List (String × Nat)) :
    (createCategories env cats idx s m).store.customizations =
      s.customizations ∧
    (createCategories env cats idx s m).store.menu = s.menu ∧
    (createCategories env cats idx s m).store.menuCus = s.menuCus ∧
    (createCategories env cats idx s m).store.files = s.files ∧
    (createCategories env cats idx s m).store.categories.length =
      s.categories.length + countEv isCreatedCategoryEv
        (createCategories env cats idx s m).events := by
  induction cats generalizing idx s m with
  | nil => simp [createCategories, countEv]
  | cons cat rest ih =>
    unfold createCategories
    split_ifs with hc
    · have := ih (idx + 1)
        { s with
          categories := s.categories ++ [(s.nextId, cat)],
          nextId := s.nextId + 1 } ((cat.name, s.nextId) :: m)
      simp [countEv, List.filter_cons, isCreatedCategoryEv] at this ⊢
      refine ⟨this.1, this.2.1, this.2.2.1, this.2.2.2.1, ?_⟩
      rw [this.2.2.2.2]
      omega
    · simp [countEv, List.filter_cons, isCreatedCategoryEv]

/-- The customization phase symmetrically. -/
theorem createCustomizations_evolution (env : SeedEnv)
    (cuss : List Customization) (idx : Nat) (s : Store)
    (m : List (String × Nat)) :
    (createCustomizations env cuss idx s m).store.categories =
      s.categories ∧
    (createCustomizations env cuss idx s m).store.menu = s.menu ∧
    (createCustomizations env cuss idx s m).store.menuCus = s.menuCus ∧
    (createCustomizations env cuss idx s m).store.files = s.files ∧
    (createCustomizations env cuss idx s m).store.customizations.length =
      s.customizations.length + countEv isCreatedCustomizationEv
        (createCustomizations env cuss idx s m).events := by
  induction cuss generalizing idx s m with
  | nil => simp [createCustomizations, countEv]
  | cons cus rest ih =>
    unfold createCustomizations
    split_ifs with hc
    · have := ih (idx + 1)
        { s with
          customizations := s.customizations ++ [(s.nextId, cus)],
          nextId := s.nextId + 1 } ((cus.name, s.nextId) :: m)
      simp [countEv, List.filter_cons, isCreatedCustomizationEv] at this ⊢
      refine ⟨this.1, this.2.1, this.2.2.1, this.2.2.2.1, ?_⟩
      rw [this.2.2.2.2]
      omega
    · simp [countEv, List.filter_cons, isCreatedCustomizationEv]

/-- The join loop adds one join document per `createdJoin` event and
emits no `createdMenu` event. -/
theorem createJoins_join_count (env : SeedEnv)
    (cusMap : List (String × Nat)) (i docId : Nat) (names : List String)
    (j : Nat) (s : Store) :
    countEv isCreatedJoinEv (createJoins env cusMap i docId names j s).2 =
      (expectedJoins env cusMap i docId names j).length ∧
    countEv isCreatedMenuEv (createJoins env cusMap i docId names j s).2
      = 0 := by
  induction names generalizing j s with
  | nil => simp [createJoins, expectedJoins, countEv]
  | cons nm rest ih =>
    unfold createJoins expectedJoins
    rcases hl : List.lookup nm cusMap with _ | cusId
    · have := ih (j + 1) s
      simp [countEv, List.filter_cons, isCreatedJoinEv,
        isCreatedMenuEv] at this ⊢
      exact this
    · split_ifs with hj
      · have := ih (j + 1)
          { s with
            menuCus := s.menuCus ++ [(s.nextId, ⟨docId, cusId⟩)],
            nextId := s.nextId + 1 }
        simp [countEv, List.filter_cons, isCreatedJoinEv,
          isCreatedMenuEv] at this ⊢
        exact ⟨this.1, this.2⟩
      · have := ih (j + 1) s
        simp [countEv, List.filter_cons, isCreatedJoinEv,
          isCreatedMenuEv] at this ⊢
        exact this

theorem createJoins_isCreatedMenuEv_false (env : SeedEnv)
    (cusMap : List (String × Nat)) (i docId : Nat) (names : List String)
    (j : Nat) (s : Store) :
    ∀ e ∈ (createJoins env cusMap i docId names j s).2,
      isCreatedMenuEv e = false := by
  intro e he
  cases e
  case createdMenu i2 nm =>
    exact absurd he (createJoins_no_createdMenu _ _ _ _ _ _ _ _ _)
  all_goals rfl

/-- One menu-item step: categories and customizations are untouched;
menu and join documents are added exactly per `createdMenu` /
`createdJoin` event. -/
theorem processItem_evolution (cfg : AppwriteConfig) (env : SeedEnv)
    (catMap cusMap : List (String × Nat)) (i : Nat) (item : MenuItem)
    (s : Store) :
    (processItem cfg env catMap cusMap i item s).store.categories =
      s.categories ∧
    (processItem cfg env catMap cusMap i item s).store.customizations =
      s.customizations ∧
    (processItem cfg env catMap cusMap i item s).store.menu.length =
      s.menu.length + countEv isCreatedMenuEv
        (processItem cfg env catMap cusMap i item s).events ∧
    (processItem cfg env catMap cusMap i item s).store.menuCus.length =
      s.menuCus.length + countEv isCreatedJoinEv
        (processItem cfg env catMap cusMap i item s).events := by
  rcases hl : List.lookup item.category_name catMap with _ | catId
  · obtain ⟨hfail, hevs⟩ := processItem_miss cfg env catMap cusMap i
      item s hl
    have hstore : (processItem cfg env catMap cusMap i item s).store.categories
          = s.categories ∧
        (processItem cfg env catMap cusMap i item s).store.customizations
          = s.customizations ∧
        (processItem cfg env catMap cusMap i item s).store.menu = s.menu ∧
        (processItem cfg env catMap cusMap i item s).store.menuCus
          = s.menuCus := by
      rcases hup : (uploadImageToStorage cfg item.image_url (env.upload i)
          s.nextId).2.2 with _ | fid <;>
        simp [processItem, hl, hup]
    rw [hevs]
    refine ⟨hstore.1, hstore.2.1, ?_, ?_⟩
    · rw [hstore.2.2.1]
      simp [countEv, List.filter_cons, isCreatedMenuEv]
    · rw [hstore.2.2.2]
      simp [countEv, List.filter_cons, isCreatedJoinEv]
  · rcases hcm : env.createMenuOk i with _ | _
    · have hres : processItem cfg env catMap cusMap i item s =
          ⟨(match (uploadImageToStorage cfg item.image_url (env.upload i)
              s.nextId).2.2 with
            | some fid => { s with
                files := s.files ++ [fid], nextId := s.nextId + 1 }
            | none => s),
            [.uploadTrace i (uploadImageToStorage cfg item.image_url
              (env.upload i) s.nextId).2.1,
              .menuFailed i item.name], false⟩ := by
        rcases hup : (uploadImageToStorage cfg item.image_url
            (env.upload i) s.nextId).2.2 with _ | fid <;>
          simp [processItem, hl, hcm, hup]
      rw [hres]
      rcases hup : (uploadImageToStorage cfg item.image_url (env.upload i)
          s.nextId).2.2 with _ | fid <;>
        simp [hup, countEv, List.filter_cons, isCreatedMenuEv,
          isCreatedJoinEv]
    · rcases hup : (uploadImageToStorage cfg item.image_url (env.upload i)
          s.nextId).2.2 with _ | fid
      · have hres : processItem cfg env catMap cusMap i item s =
            ⟨(createJoins env cusMap i s.nextId item.customizations 0
                { s with
                  menu := s.menu ++ [(s.nextId,
                    ⟨item.name, item.description,
                      .external (uploadImageToStorage cfg item.image_url
                        (env.upload i) s.nextId).1, item.price,
                      item.rating, item.calories, item.protein, catId⟩)],
                  nextId := s.nextId + 1 }).1,
              .uploadTrace i (uploadImageToStorage cfg item.image_url
                  (env.upload i) s.nextId).2.1 ::
                .createdMenu i item.name ::
                (createJoins env cusMap i s.nextId item.customizations 0
                  { s with
                    menu := s.menu ++ [(s.nextId,
                      ⟨item.name, item.description,
                        .external (uploadImageToStorage cfg item.image_url
                          (env.upload i) s.nextId).1, item.price,
                        item.rating, item.calories, item.protein,
                        catId⟩)],
                    nextId := s.nextId + 1 }).2, true⟩ := by
          simp [processItem, hl, hcm, hup]
        obtain ⟨h1, h2, h3, _, h5, _⟩ := createJoins_store env cusMap i
          s.nextId item.customizations 0
          { s with
            menu := s.menu ++ [(s.nextId,
              ⟨item.name, item.description,
                .external (uploadImageToStorage cfg item.image_url
                  (env.upload i) s.nextId).1, item.price, item.rating,
                item.calories, item.protein, catId⟩)],
            nextId := s.nextId + 1 }
        obtain ⟨hc1, hc2⟩ := createJoins_join_count env cusMap i s.nextId
          item.customizations 0
          { s with
            menu := s.menu ++ [(s.nextId,
              ⟨item.name, item.description,
                .external (uploadImageToStorage cfg item.image_url
                  (env.upload i) s.nextId).1, item.price, item.rating,
                item.calories, item.protein, catId⟩)],
            nextId := s.nextId + 1 }
        have h5len := congrArg List.length h5
        simp only [List.length_map, List.length_append] at h5len
        rw [hres]
        refine ⟨by simpa using h2, by simpa using h3, ?_, ?_⟩
        · rw [h1, countEv_cons_false _ _ _ rfl,
            countEv_cons_true _ _ _ rfl,
            countEv_zero _ _ (createJoins_isCreatedMenuEv_false _ _ _ _ _ _ _)]
          simp
        · rw [h5len, countEv_cons_false _ _ _ rfl,
            countEv_cons_false _ _ _ rfl, hc1]
      · have hres : processItem cfg env catMap cusMap i item s =
            ⟨(createJoins env cusMap i (s.nextId + 1)
                item.customizations 0
                { s with
                  files := s.files ++ [fid],
                  menu := s.menu ++ [(s.nextId + 1,
                    ⟨item.name, item.description, .stored fid,
                      item.price, item.rating, item.calories,
                      item.protein, catId⟩)],
                  nextId := s.nextId + 1 + 1 }).1,
              .uploadTrace i (uploadImageToStorage cfg item.image_url
                  (env.upload i) s.nextId).2.1 ::
                .createdMenu i item.name ::
                (createJoins env cusMap i (s.nextId + 1)
                  item.customizations 0
                  { s with
                    files := s.files ++ [fid],
                    menu := s.menu ++ [(s.nextId + 1,
                      ⟨item.name, item.description, .stored fid,
                        item.price, item.rating, item.calories,
                        item.protein, catId⟩)],
                    nextId := s.nextId + 1 + 1 }).2, true⟩ := by
          simp [processItem, hl, hcm, hup]
        obtain ⟨h1, h2, h3, _, h5, _⟩ := createJoins_store env cusMap i
          (s.nextId + 1) item.customizations 0
          { s with
            files := s.files ++ [fid],
            menu := s.menu ++ [(s.nextId + 1,
              ⟨item.name, item.description, .stored fid, item.price,
                item.rating, item.calories, item.protein, catId⟩)],
            nextId := s.nextId + 1 + 1 }
        obtain ⟨hc1, hc2⟩ := createJoins_join_count env cusMap i
          (s.nextId + 1) item.customizations 0
          { s with
            files := s.files ++ [fid],
            menu := s.menu ++ [(s.nextId + 1,
              ⟨item.name, item.description, .stored fid, item.price,
                item.rating, item.calories, item.protein, catId⟩)],
            nextId := s.nextId + 1 + 1 }
        have h5len := congrArg List.length h5
        simp only [List.length_map, List.length_append] at h5len
        rw [hres]
        refine ⟨by simpa using h2, by simpa using h3, ?_, ?_⟩
        · rw [h1, countEv_cons_false _ _ _ rfl,
            countEv_cons_true _ _ _ rfl,
            countEv_zero _ _ (createJoins_isCreatedMenuEv_false _ _ _ _ _ _ _)]
          simp
        · rw [h5len, countEv_cons_false _ _ _ rfl,
            countEv_cons_false _ _ _ rfl, hc1]

/-! ### Abort-at-first-failure and phase ordering (claim C8) -/

theorem getLast?_cons_ne {α : Type} (a : α) (l : List α) (h : l ≠ []) :
    (a :: l).getLast? = l.getLast? := by
  cases l with
  | nil => exact absurd rfl h
  | cons b m => rfl

theorem getLast?_append_ne {α : Type} (l1 l2 : List α) (h : l2 ≠ []) :
    (l1 ++ l2).getLast? = l2.getLast? := by
  induction l1 with
  | nil => rfl
  | cons a t ih =>
    rw [List.cons_append, getLast?_cons_ne, ih]
    intro hc
    rcases List.append_eq_nil.mp hc with ⟨_, h2⟩
    exact h h2

theorem ne_nil_of_getLast?_eq_some {α : Type} (l : List α) (x : α)
    (h : l.getLast? = some x) : l ≠ [] := by
  intro hc
  subst hc
  simp at h

theorem clearPhase_fatal (env : SeedEnv) (s : Store)
    (h : (clearPhase env s).ok = false) :
    ∃ e, (clearPhase env s).events.getLast? = some e ∧
      isFatalEv e = true := by
  simp only [clearPhase] at h ⊢
  split_ifs at h ⊢
  · exact ⟨.clearFailedEv 0, rfl, rfl⟩
  · exact ⟨.clearFailedEv 1, rfl, rfl⟩
  · exact ⟨.clearFailedEv 2, rfl, rfl⟩
  · exact ⟨.clearFailedEv 3, rfl, rfl⟩
  · exact ⟨.clearFailedEv 4, rfl, rfl⟩

theorem createCategories_fatal (env : SeedEnv) (cats : List Category)
    (idx : Nat) (s : Store) (m : List (String × Nat))
    (h : (createCategories env cats idx s m).ok = false) :
    ∃ nm, (createCategories env cats idx s m).events.getLast? =
      some (.categoryFailed nm) := by
  induction cats generalizing idx s m with
  | nil => simp [createCategories] at h
  | cons cat rest ih =>
    unfold createCategories at h ⊢
    split_ifs at h ⊢ with hc
    · simp only at h ⊢
      obtain ⟨nm, hnm⟩ := ih (idx + 1) _ _ h
      refine ⟨nm, ?_⟩
      rw [getLast?_cons_ne _ _
        (ne_nil_of_getLast?_eq_some _ _ hnm), hnm]
    · exact ⟨cat.name, rfl⟩

theorem createCustomizations_fatal (env : SeedEnv)
    (cuss : List Customization) (idx : Nat) (s : Store)
    (m : List (String × Nat))
    (h : (createCustomizations env cuss idx s m).ok = false) :
    ∃ nm, (createCustomizations env cuss idx s m).events.getLast? =
      some (.customizationFailed nm) := by
  induction cuss generalizing idx s m with
  | nil => simp [createCustomizations] at h
  | cons cus rest ih =>
    unfold createCustomizations at h ⊢
    split_ifs at h ⊢ with hc
    · simp only at h ⊢
      obtain ⟨nm, hnm⟩ := ih (idx + 1) _ _ h
      refine ⟨nm, ?_⟩
      rw [getLast?_cons_ne _ _
        (ne_nil_of_getLast?_eq_some _ _ hnm), hnm]
    · exact ⟨cus.name, rfl⟩

theorem processItem_fatal (cfg : AppwriteConfig) (env : SeedEnv)
    (catMap cusMap : List (String × Nat)) (i : Nat) (item : MenuItem)
    (s : Store) (h : (processItem cfg env catMap cusMap i item s).ok
      = false) :
    ∃ e, (processItem cfg env catMap cusMap i item s).events.getLast? =
      some e ∧ isFatalEv e = true := by
  rcases hl : List.lookup item.category_name catMap with _ | catId
  · obtain ⟨_, h2⟩ := processItem_miss cfg env catMap cusMap i item s hl
    rw [h2]
    exact ⟨.categoryMissing i item.category_name, rfl, rfl⟩
  · rcases hm : env.createMenuOk i with _ | _
    · have hres : (processItem cfg env catMap cusMap i item s).events =
          [.uploadTrace i (uploadImageToStorage cfg item.image_url
            (env.upload i) s.nextId).2.1, .menuFailed i item.name] := by
        rcases hup : (uploadImageToStorage cfg item.image_url
            (env.upload i) s.nextId).2.2 with _ | fid <;>
          simp [processItem, hl, hm, hup]
      rw [hres]
      exact ⟨.menuFailed i item.name, rfl, rfl⟩
    · have hok : (processItem cfg env catMap cusMap i item s).ok
          = true := by
        rcases hup : (uploadImageToStorage cfg item.image_url
            (env.upload i) s.nextId).2.2 with _ | fid <;>
          simp [processItem, hl, hm, hup]
      rw [h] at hok
      exact Bool.noConfusion hok

theorem processItems_fatal (cfg : AppwriteConfig) (env : SeedEnv)
    (catMap cusMap : List (String × Nat)) (items : List MenuItem)
    (base : Nat) (s : Store)
    (h : (processItems cfg env catMap cusMap items base s).ok = false) :
    ∃ e, (processItems cfg env catMap cusMap items base
      s).events.getLast? = some e ∧ isFatalEv e = true := by
  induction items generalizing base s with
  | nil => simp [processItems] at h
  | cons item rest ih =>
    by_cases hok : (processItem cfg env catMap cusMap base item s).ok
      = true
    · have hres : processItems cfg env catMap cusMap (item :: rest)
          base s = ⟨(processItems cfg env catMap cusMap rest (base + 1)
              (processItem cfg env catMap cusMap base item s).store).store,
            (processItem cfg env catMap cusMap base item s).events ++
              (processItems cfg env catMap cusMap rest (base + 1)
                (processItem cfg env catMap cusMap base item
                  s).store).events,
            (processItems cfg env catMap cusMap rest (base + 1)
              (processItem cfg env catMap cusMap base item
                s).store).ok⟩ := by
        simp [processItems, hok]
      rw [hres] at h ⊢
      obtain ⟨e, he, hf⟩ := ih (base + 1) _ h
      refine ⟨e, ?_, hf⟩
      rw [getLast?_append_ne _ _ (ne_nil_of_getLast?_eq_some _ _ he), he]
    · have hok2 : (processItem cfg env catMap cusMap base item s).ok
          = false := by
        revert hok; cases (processItem cfg env catMap cusMap base item
          s).ok <;> simp
      have hres : processItems cfg env catMap cusMap (item :: rest)
          base s = ⟨(processItem cfg env catMap cusMap base item s).store,
            (processItem cfg env catMap cusMap base item s).events,
            false⟩ := by
        simp [processItems, hok2]
      rw [hres]
      exact processItem_fatal cfg env catMap cusMap base item s hok2

/-- The phase outputs of a seed run, as standalone definitions. -/
def seedC (env : SeedEnv) (s : Store) : SeedRes := clearPhase env s

def seedP1 (data : DummyData) (env : SeedEnv) (s : Store) : MapRes :=
  createCategories env data.categories 0 (seedC env s).store []

def seedP2 (data : DummyData) (env : SeedEnv) (s : Store) : MapRes :=
  createCustomizations env data.customizations 0
    (seedP1 data env s).store []

def seedP3 (cfg : AppwriteConfig) (data : DummyData) (env : SeedEnv)
    (s : Store) : SeedRes :=
  processItems cfg env (seedP1 data env s).map (seedP2 data env s).map
    data.menu 0 (seedP2 data env s).store

/-- The four shapes a seed run can take, by which phase (if any)
failed. -/
theorem seed_shape (cfg : AppwriteConfig) (data : DummyData)
    (env : SeedEnv) (s : Store) :
    ((seedC env s).ok = false ∧ seed cfg data env s =
      ⟨(seedC env s).store, (seedC env s).events, false⟩) ∨
    ((seedC env s).ok = true ∧ (seedP1 data env s).ok = false ∧
      seed cfg data env s = ⟨(seedP1 data env s).store,
        (seedC env s).events ++ (seedP1 data env s).events, false⟩) ∨
    ((seedC env s).ok = true ∧ (seedP1 data env s).ok = true ∧
      (seedP2 data env s).ok = false ∧
      seed cfg data env s = ⟨(seedP2 data env s).store,
        (seedC env s).events ++ (seedP1 data env s).events ++
          (seedP2 data env s).events, false⟩) ∨
    ((seedC env s).ok = true ∧ (seedP1 data env s).ok = true ∧
      (seedP2 data env s).ok = true ∧
      seed cfg data env s = ⟨(seedP3 cfg data env s).store,
        (seedC env s).events ++ (seedP1 data env s).events ++
          (seedP2 data env s).events ++ (seedP3 cfg data env s).events,
        (seedP3 cfg data env s).ok⟩) := by
  cases h0 : (seedC env s).ok with
  | false =>
    refine Or.inl ⟨rfl, ?_⟩
    unfold seedC at h0 ⊢
    simp [seed, h0]
  | true =>
    cases h1 : (seedP1 data env s).ok with
    | false =>
      refine Or.inr (Or.inl ⟨rfl, rfl, ?_⟩)
      unfold seedC at h0
      unfold seedP1 seedC at h1 ⊢
      simp [seed, h0, h1]
    | true =>
      cases h2 : (seedP2 data env s).ok with
      | false =>
        refine Or.inr (Or.inr (Or.inl ⟨rfl, rfl, rfl, ?_⟩))
        unfold seedC at h0
        unfold seedP1 seedC at h1
        unfold seedP2 seedP1 seedC at h2 ⊢
        simp [seed, h0, h1, h2]
      | true =>
        refine Or.inr (Or.inr (Or.inr ⟨rfl, rfl, rfl, ?_⟩))
        unfold seedC at h0
        unfold seedP1 seedC at h1
        unfold seedP2 seedP1 seedC at h2
        unfold seedP3 seedP2 seedP1 seedC
        simp [seed, h0, h1, h2]

/-- The menu phase as a whole: categories and customizations untouched;
menu and join documents added exactly per created-event. -/
theorem processItems_evolution (cfg : AppwriteConfig) (env : SeedEnv)
    (catMap cusMap : List (String × Nat)) (items : List MenuItem)
    (base : Nat) (s : Store) :
    (processItems cfg env catMap cusMap items base s).store.categories =
      s.categories ∧
    (processItems cfg env catMap cusMap items base
      s).store.customizations = s.customizations ∧
    (processItems cfg env catMap cusMap items base s).store.menu.length =
      s.menu.length + countEv isCreatedMenuEv
        (processItems cfg env catMap cusMap items base s).events ∧
    (processItems cfg env catMap cusMap items base
        s).store.menuCus.length =
      s.menuCus.length + countEv isCreatedJoinEv
        (processItems cfg env catMap cusMap items base s).events := by
  induction items generalizing base s with
  | nil => simp [processItems, countEv]
  | cons item rest ih =>
    obtain ⟨e1, e2, e3, e4⟩ := processItem_evolution cfg env catMap
      cusMap base item s
    by_cases hok : (processItem cfg env catMap cusMap base item s).ok
      = true
    · have hres : processItems cfg env catMap cusMap (item :: rest)
          base s = ⟨(processItems cfg env catMap cusMap rest (base + 1)
              (processItem cfg env catMap cusMap base item s).store).store,
            (processItem cfg env catMap cusMap base item s).events ++
              (processItems cfg env catMap cusMap rest (base + 1)
                (processItem cfg env catMap cusMap base item
                  s).store).events,
            (processItems cfg env catMap cusMap rest (base + 1)
              (processItem cfg env catMap cusMap base item
                s).store).ok⟩ := by
        simp [processItems, hok]
      obtain ⟨f1, f2, f3, f4⟩ := ih (base + 1)
        (processItem cfg env catMap cusMap base item s).store
      rw [hres]
      refine ⟨by rw [f1, e1], by rw [f2, e2], ?_, ?_⟩
      · rw [countEv_append, f3, e3]
        omega
      · rw [countEv_append, f4, e4]
        omega
    · have hok2 : (processItem cfg env catMap cusMap base item s).ok
          = false := by
        revert hok
        cases (processItem cfg env catMap cusMap base item s).ok <;> simp
      have hres : processItems cfg env catMap cusMap (item :: rest)
          base s = ⟨(processItem cfg env catMap cusMap base item s).store,
            (processItem cfg env catMap cusMap base item s).events,
            false⟩ := by
        simp [processItems, hok2]
      rw [hres]
      exact ⟨e1, e2, e3, e4⟩

/-- Events of a different phase contribute nothing to a count. -/
theorem countEv_zero_of_phase (q : SeedEvent → Bool) (pq : Nat)
    (hq : ∀ e, q e = true → phaseOf e = pq) (l : List SeedEvent)
    (p : Nat) (hp : p ≠ pq) (h : ∀ e ∈ l, phaseOf e = p) :
    countEv q l = 0 :=
  countEv_zero _ _ fun e he => by
    cases hce : q e
    · rfl
    · have h1 : pq = p := (hq e hce).symm.trans (h e he)
      exact absurd h1.symm hp

theorem pairwise_phase_const (l : List SeedEvent) (p : Nat)
    (h : ∀ e ∈ l, phaseOf e = p) :
    List.Pairwise (fun a b => a ≤ b) (l.map phaseOf) := by
  induction l with
  | nil => simp
  | cons a t ih =>
    rw [List.map_cons, List.pairwise_cons]
    constructor
    · intro b hb
      obtain ⟨e, he, rfl⟩ := List.mem_map.mp hb
      rw [h a (List.mem_cons_self a t), h e (List.mem_cons_of_mem a he)]
    · exact ih fun e he => h e (List.mem_cons_of_mem a he)

theorem pairwise_phase_append (l1 l2 : List SeedEvent)
    (h1 : List.Pairwise (fun a b => a ≤ b) (l1.map phaseOf))
    (h2 : List.Pairwise (fun a b => a ≤ b) (l2.map phaseOf))
    (hle : ∀ a ∈ l1, ∀ b ∈ l2, phaseOf a ≤ phaseOf b) :
    List.Pairwise (fun a b => a ≤ b) ((l1 ++ l2).map phaseOf) := by
  rw [List.map_append, List.pairwise_append]
  refine ⟨h1, h2, ?_⟩
  intro a ha b hb
  obtain ⟨e, he, rfl⟩ := List.mem_map.mp ha
  obtain ⟨f, hf, rfl⟩ := List.mem_map.mp hb
  exact hle e he f hf

/-- **C8.**  (i) The trace of every seed run is ordered by phase:
clear (0), then categories (1), then customizations (2), then menu
items (3).  (ii) Within one collection's clear, the deletions behave as
a concurrent fan-out batch: every deletion is attempted whatever
happens to the others (a document survives exactly when its own
deletion failed), and the clear succeeds iff the listing and all
deletions succeeded.  (iii) The first fatal error aborts the run — a
failing run's trace ends at the failure event — and nothing is rolled
back: every document whose creation is in the trace is still in the
final store. -/
theorem claim8_phase_order_and_abort (cfg : AppwriteConfig)
    (data : DummyData) (env : SeedEnv) (s : Store) :
    List.Pairwise (fun a b => a ≤ b)
      ((seed cfg data env s).events.map phaseOf) ∧
    (∀ (α : Type) (listOk : Bool) (delOk : Nat → Bool)
        (docs : List (Nat × α)),
      ((clearAll listOk delOk docs).2 = true ↔
        listOk = true ∧ ∀ d ∈ docs, delOk d.1 = true) ∧
      (listOk = true → ∀ d, (d ∈ (clearAll listOk delOk docs).1 ↔
        d ∈ docs ∧ delOk d.1 = false))) ∧
    ((seed cfg data env s).ok = false →
      ∃ e, (seed cfg data env s).events.getLast? = some e ∧
        isFatalEv e = true) ∧
    countEv isCreatedCategoryEv (seed cfg data env s).events ≤
      (seed cfg data env s).store.categories.length ∧
    countEv isCreatedCustomizationEv (seed cfg data env s).events ≤
      (seed cfg data env s).store.customizations.length ∧
    countEv isCreatedMenuEv (seed cfg data env s).events ≤
      (seed cfg data env s).store.menu.length ∧
    countEv isCreatedJoinEv (seed cfg data env s).events ≤
      (seed cfg data env s).store.menuCus.length := by
  have hclr : ∀ (α : Type) (listOk : Bool) (delOk : Nat → Bool)
      (docs : List (Nat × α)),
      ((clearAll listOk delOk docs).2 = true ↔
        listOk = true ∧ ∀ d ∈ docs, delOk d.1 = true) ∧
      (listOk = true → ∀ d, (d ∈ (clearAll listOk delOk docs).1 ↔
        d ∈ docs ∧ delOk d.1 = false)) := by
    intro α listOk delOk docs
    constructor
    · unfold clearAll
      split_ifs with hlo
      · simp [hlo, List.all_eq_true]
      · simp [hlo]
    · intro hlo d
      unfold clearAll
      simp [hlo, List.mem_filter]
  have hp0 : ∀ e ∈ (seedC env s).events, phaseOf e = 0 :=
    clearPhase_phase env s
  have hp1 : ∀ e ∈ (seedP1 data env s).events, phaseOf e = 1 :=
    createCategories_phase env data.categories 0 (seedC env s).store []
  have hp2 : ∀ e ∈ (seedP2 data env s).events, phaseOf e = 2 :=
    createCustomizations_phase env data.customizations 0
      (seedP1 data env s).store []
  have hp3 : ∀ e ∈ (seedP3 cfg data env s).events, phaseOf e = 3 :=
    processItems_phase cfg env (seedP1 data env s).map
      (seedP2 data env s).map data.menu 0 (seedP2 data env s).store
  have c1 : (seedP1 data env s).store.customizations =
      (seedC env s).store.customizations :=
    (createCategories_evolution env data.categories 0
      (seedC env s).store []).1
  have c2 : (seedP1 data env s).store.menu = (seedC env s).store.menu :=
    (createCategories_evolution env data.categories 0
      (seedC env s).store []).2.1
  have c3 : (seedP1 data env s).store.menuCus =
      (seedC env s).store.menuCus :=
    (createCategories_evolution env data.categories 0
      (seedC env s).store []).2.2.1
  have c5 : (seedP1 data env s).store.categories.length =
      (seedC env s).store.categories.length +
        countEv isCreatedCategoryEv (seedP1 data env s).events :=
    (createCategories_evolution env data.categories 0
      (seedC env s).store []).2.2.2.2
  have d1 : (seedP2 data env s).store.categories =
      (seedP1 data env s).store.categories :=
    (createCustomizations_evolution env data.customizations 0
      (seedP1 data env s).store []).1
  have d2 : (seedP2 data env s).store.menu =
      (seedP1 data env s).store.menu :=
    (createCustomizations_evolution env data.customizations 0
      (seedP1 data env s).store []).2.1
  have d3 : (seedP2 data env s).store.menuCus =
      (seedP1 data env s).store.menuCus :=
    (createCustomizations_evolution env data.customizations 0
      (seedP1 data env s).store []).2.2.1
  have d5 : (seedP2 data env s).store.customizations.length =
      (seedP1 data env s).store.customizations.length +
        countEv isCreatedCustomizationEv (seedP2 data env s).events :=
    (createCustomizations_evolution env data.customizations 0
      (seedP1 data env s).store []).2.2.2.2
  have g1 : (seedP3 cfg data env s).store.categories =
      (seedP2 data env s).store.categories :=
    (processItems_evolution cfg env (seedP1 data env s).map
      (seedP2 data env s).map data.menu 0 (seedP2 data env s).store).1
  have g2 : (seedP3 cfg data env s).store.customizations =
      (seedP2 data env s).store.customizations :=
    (processItems_evolution cfg env (seedP1 data env s).map
      (seedP2 data env s).map data.menu 0 (seedP2 data env s).store).2.1
  have g3 : (seedP3 cfg data env s).store.menu.length =
      (seedP2 data env s).store.menu.length +
        countEv isCreatedMenuEv (seedP3 cfg data env s).events :=
    (processItems_evolution cfg env (seedP1 data env s).map
      (seedP2 data env s).map data.menu 0
      (seedP2 data env s).store).2.2.1
  have g4 : (seedP3 cfg data env s).store.menuCus.length =
      (seedP2 data env s).store.menuCus.length +
        countEv isCreatedJoinEv (seedP3 cfg data env s).events :=
    (processItems_evolution cfg env (seedP1 data env s).map
      (seedP2 data env s).map data.menu 0
      (seedP2 data env s).store).2.2.2
  rcases seed_shape cfg data env s with ⟨h0, hres⟩ | ⟨h0, h1, hres⟩ |
    ⟨h0, h1, h2, hres⟩ | ⟨h0, h1, h2, hres⟩
  · rw [hres]
    dsimp only
    refine ⟨pairwise_phase_const _ 0 hp0, hclr, ?_, ?_, ?_, ?_, ?_⟩
    · intro _
      exact clearPhase_fatal env s h0
    · rw [countEv_zero_of_phase _ 1 isCreatedCategoryEv_phase _ 0
        (by omega) hp0]
      omega
    · rw [countEv_zero_of_phase _ 2 isCreatedCustomizationEv_phase _ 0
        (by omega) hp0]
      omega
    · rw [countEv_zero_of_phase _ 3 isCreatedMenuEv_phase _ 0
        (by omega) hp0]
      omega
    · rw [countEv_zero_of_phase _ 3 isCreatedJoinEv_phase _ 0
        (by omega) hp0]
      omega
  · rw [hres]
    dsimp only
    refine ⟨?_, hclr, ?_, ?_, ?_, ?_, ?_⟩
    · refine pairwise_phase_append _ _ (pairwise_phase_const _ 0 hp0)
        (pairwise_phase_const _ 1 hp1) ?_
      intro a ha b hb
      rw [hp0 a ha, hp1 b hb]
      omega
    · intro _
      obtain ⟨nm, hnm⟩ := createCategories_fatal env data.categories 0
        (seedC env s).store [] h1
      have hnm2 : (seedP1 data env s).events.getLast? =
          some (.categoryFailed nm) := hnm
      refine ⟨.categoryFailed nm, ?_, rfl⟩
      rw [getLast?_append_ne _ _ (ne_nil_of_getLast?_eq_some _ _ hnm2)]
      exact hnm2
    · rw [countEv_append,
        countEv_zero_of_phase _ 1 isCreatedCategoryEv_phase _ 0
          (by omega) hp0]
      omega
    · rw [countEv_append,
        countEv_zero_of_phase _ 2 isCreatedCustomizationEv_phase _ 0
          (by omega) hp0,
        countEv_zero_of_phase _ 2 isCreatedCustomizationEv_phase _ 1
          (by omega) hp1]
      omega
    · rw [countEv_append,
        countEv_zero_of_phase _ 3 isCreatedMenuEv_phase _ 0
          (by omega) hp0,
        countEv_zero_of_phase _ 3 isCreatedMenuEv_phase _ 1
          (by omega) hp1]
      omega
    · rw [countEv_append,
        countEv_zero_of_phase _ 3 isCreatedJoinEv_phase _ 0
          (by omega) hp0,
        countEv_zero_of_phase _ 3 isCreatedJoinEv_phase _ 1
          (by omega) hp1]
      omega
  · rw [hres]
    dsimp only
    refine ⟨?_, hclr, ?_, ?_, ?_, ?_, ?_⟩
    · refine pairwise_phase_append _ _
        (pairwise_phase_append _ _ (pairwise_phase_const _ 0 hp0)
          (pairwise_phase_const _ 1 hp1) ?_)
        (pairwise_phase_const _ 2 hp2) ?_
      · intro a ha b hb
        rw [hp0 a ha, hp1 b hb]
        omega
      · intro a ha b hb
        rcases List.mem_append.mp ha with h | h
        · rw [hp0 a h, hp2 b hb]
          omega
        · rw [hp1 a h, hp2 b hb]
          omega
    · intro _
      obtain ⟨nm, hnm⟩ := createCustomizations_fatal env
        data.customizations 0 (seedP1 data env s).store [] h2
      have hnm2 : (seedP2 data env s).events.getLast? =
          some (.customizationFailed nm) := hnm
      refine ⟨.customizationFailed nm, ?_, rfl⟩
      rw [getLast?_append_ne _ _ (ne_nil_of_getLast?_eq_some _ _ hnm2)]
      exact hnm2
    · rw [countEv_append, countEv_append,
        countEv_zero_of_phase _ 1 isCreatedCategoryEv_phase _ 0
          (by omega) hp0,
        countEv_zero_of_phase _ 1 isCreatedCategoryEv_phase _ 2
          (by omega) hp2]
      have hd1 := congrArg List.length d1
      omega
    · rw [countEv_append, countEv_append,
        countEv_zero_of_phase _ 2 isCreatedCustomizationEv_phase _ 0
          (by omega) hp0,
        countEv_zero_of_phase _ 2 isCreatedCustomizationEv_phase _ 1
          (by omega) hp1]
      have hc1 := congrArg List.length c1
      omega
    · rw [countEv_append, countEv_append,
        countEv_zero_of_phase _ 3 isCreatedMenuEv_phase _ 0
          (by omega) hp0,
        countEv_zero_of_phase _ 3 isCreatedMenuEv_phase _ 1
          (by omega) hp1,
        countEv_zero_of_phase _ 3 isCreatedMenuEv_phase _ 2
          (by omega) hp2]
      omega
    · rw [countEv_append, countEv_append,
        countEv_zero_of_phase _ 3 isCreatedJoinEv_phase _ 0
          (by omega) hp0,
        countEv_zero_of_phase _ 3 isCreatedJoinEv_phase _ 1
          (by omega) hp1,
        countEv_zero_of_phase _ 3 isCreatedJoinEv_phase _ 2
          (by omega) hp2]
      omega
  · rw [hres]
    dsimp only
    refine ⟨?_, hclr, ?_, ?_, ?_, ?_, ?_⟩
    · refine pairwise_phase_append _ _
        (pairwise_phase_append _ _
          (pairwise_phase_append _ _ (pairwise_phase_const _ 0 hp0)
            (pairwise_phase_const _ 1 hp1) ?_)
          (pairwise_phase_const _ 2 hp2) ?_)
        (pairwise_phase_const _ 3 hp3) ?_
      · intro a ha b hb
        rw [hp0 a ha, hp1 b hb]
        omega
      · intro a ha b hb
        rcases List.mem_append.mp ha with h | h
        · rw [hp0 a h, hp2 b hb]
          omega
        · rw [hp1 a h, hp2 b hb]
          omega
      · intro a ha b hb
        rcases List.mem_append.mp ha with h | h
        · rcases List.mem_append.mp h with h3 | h3
          · rw [hp0 a h3, hp3 b hb]
            omega
          · rw [hp1 a h3, hp3 b hb]
            omega
        · rw [hp2 a h, hp3 b hb]
          omega
    · intro hfail
      obtain ⟨e, he, hf⟩ := processItems_fatal cfg env
        (seedP1 data env s).map (seedP2 data env s).map data.menu 0
        (seedP2 data env s).store hfail
      have he2 : (seedP3 cfg data env s).events.getLast? = some e := he
      refine ⟨e, ?_, hf⟩
      rw [getLast?_append_ne _ _ (ne_nil_of_getLast?_eq_some _ _ he2)]
      exact he2
    · rw [countEv_append, countEv_append, countEv_append,
        countEv_zero_of_phase _ 1 isCreatedCategoryEv_phase _ 0
          (by omega) hp0,
        countEv_zero_of_phase _ 1 isCreatedCategoryEv_phase _ 2
          (by omega) hp2,
        countEv_zero_of_phase _ 1 isCreatedCategoryEv_phase _ 3
          (by omega) hp3]
      have hd1 := congrArg List.length d1
      have hg1 := congrArg List.length g1
      omega
    · rw [countEv_append, countEv_append, countEv_append,
        countEv_zero_of_phase _ 2 isCreatedCustomizationEv_phase _ 0
          (by omega) hp0,
        countEv_zero_of_phase _ 2 isCreatedCustomizationEv_phase _ 1
          (by omega) hp1,
        countEv_zero_of_phase _ 2 isCreatedCustomizationEv_phase _ 3
          (by omega) hp3]
      have hc1 := congrArg List.length c1
      have hg2 := congrArg List.length g2
      omega
    · rw [countEv_append, countEv_append, countEv_append,
        countEv_zero_of_phase _ 3 isCreatedMenuEv_phase _ 0
          (by omega) hp0,
        countEv_zero_of_phase _ 3 isCreatedMenuEv_phase _ 1
          (by omega) hp1,
        countEv_zero_of_phase _ 3 isCreatedMenuEv_phase _ 2
          (by omega) hp2]
      have hc2 := congrArg List.length c2
      have hd2 := congrArg List.length d2
      omega
    · rw [countEv_append, countEv_append, countEv_append,
        countEv_zero_of_phase _ 3 isCreatedJoinEv_phase _ 0
          (by omega) hp0,
        countEv_zero_of_phase _ 3 isCreatedJoinEv_phase _ 1
          (by omega) hp1,
        countEv_zero_of_phase _ 3 isCreatedJoinEv_phase _ 2
          (by omega) hp2]
      have hc3 := congrArg List.length c3
      have hd3 := congrArg List.length d3
      omega

/-- Witness for C8 on a concrete failing run (`missingCatData` makes
the menu phase abort): the trace is phase-ordered and ends at the fatal
missing-category event. -/
theorem claim8_witness :
    List.Pairwise (fun a b => a ≤ b)
      ((seed sampleCfg missingCatData allOkEnv emptyStore).events.map
        phaseOf) ∧
    ((seed sampleCfg missingCatData allOkEnv emptyStore).ok = false) ∧
    (∃ e, (seed sampleCfg missingCatData allOkEnv
        emptyStore).events.getLast? = some e ∧ isFatalEv e = true) :=
  ⟨(claim8_phase_order_and_abort sampleCfg missingCatData allOkEnv
      emptyStore).1,
    rfl,
    (claim8_phase_order_and_abort sampleCfg missingCatData allOkEnv
      emptyStore).2.2.1 rfl⟩

/-! ### Idempotence of the seed run (claim C4) -/

/-- One attempt behaves the same whatever fresh file id it is given:
it fails with the same events, or succeeds returning the view URL of
the given id. -/
theorem tryAttempt_rel (cfg : AppwriteConfig) (k : Nat) (url : String)
    (e : AttemptEnv) (fid fid2 : Nat) :
    (∃ evs, tryAttempt cfg k url e fid = .error evs ∧
      tryAttempt cfg k url e fid2 = .error evs) ∨
    (∃ evs evs2, tryAttempt cfg k url e fid =
        .ok (getFileView cfg fid, evs) ∧
      tryAttempt cfg k url e fid2 = .ok (getFileView cfg fid2, evs2)) := by
  unfold tryAttempt
  split_ifs with hv
  · exact Or.inl ⟨_, rfl, rfl⟩
  · cases e with
    | netErr => exact Or.inl ⟨_, rfl, rfl⟩
    | respNotOk st => exact Or.inl ⟨_, rfl, rfl⟩
    | blobOk t size now rand createOk =>
      by_cases hs : size = 0
      · exact Or.inl ⟨[.attemptStart k, .fetchIssued, .emptyData],
          by simp [hs], by simp [hs]⟩
      · cases createOk with
        | false =>
          exact Or.inl ⟨[.attemptStart k, .fetchIssued, .createFailed],
            by simp [hs], by simp [hs]⟩
        | true =>
          exact Or.inr ⟨[.attemptStart k, .fetchIssued,
              .fileCreated fid (mkFilename now rand
                (extensionFromPath (urlPathname url)))],
            [.attemptStart k, .fetchIssued,
              .fileCreated fid2 (mkFilename now rand
                (extensionFromPath (urlPathname url)))],
            by simp [hs], by simp [hs]⟩

/-- The retry loop with different fresh ids: either both runs fall back
to the original URL with no file, or both store their respective fresh
id. -/
theorem uploadGo_indep (cfg : AppwriteConfig) (url : String)
    (uenv : Nat → AttemptEnv) (fid fid2 : Nat) :
    ∀ (f a : Nat),
    ((uploadGo cfg url uenv fid a f).2.2 = none ∧
      (uploadGo cfg url uenv fid2 a f).2.2 = none ∧
      (uploadGo cfg url uenv fid a f).1 = url ∧
      (uploadGo cfg url uenv fid2 a f).1 = url) ∨
    ((uploadGo cfg url uenv fid a f).2.2 = some fid ∧
      (uploadGo cfg url uenv fid2 a f).2.2 = some fid2 ∧
      (uploadGo cfg url uenv fid a f).1 = getFileView cfg fid ∧
      (uploadGo cfg url uenv fid2 a f).1 = getFileView cfg fid2) := by
  have herrlast : ∀ (g : Nat) (a : Nat) (evs : List UploadEvent),
      tryAttempt cfg a url (uenv a) g = .error evs →
      uploadGo cfg url uenv g a 1 = (url, evs, none) := by
    intro g a evs he
    simp [uploadGo, he]
  have herrstep : ∀ (g : Nat) (a f3 : Nat) (evs : List UploadEvent),
      tryAttempt cfg a url (uenv a) g = .error evs →
      uploadGo cfg url uenv g a (f3 + 2) =
        ((uploadGo cfg url uenv g (a + 1) (f3 + 1)).1,
          evs ++ .wait (2 ^ a * 1000) ::
            (uploadGo cfg url uenv g (a + 1) (f3 + 1)).2.1,
          (uploadGo cfg url uenv g (a + 1) (f3 + 1)).2.2) := by
    intro g a f3 evs he
    simp [uploadGo, he]
  have hokstep : ∀ (g : Nat) (a f3 : Nat) (u : String)
      (evs : List UploadEvent),
      tryAttempt cfg a url (uenv a) g = .ok (u, evs) →
      uploadGo cfg url uenv g a (f3 + 1) = (u, evs, some g) := by
    intro g a f3 u evs he
    simp [uploadGo, he]
  intro f
  induction f with
  | zero => intro a; exact Or.inl ⟨rfl, rfl, rfl, rfl⟩
  | succ f2 ih =>
    intro a
    rcases tryAttempt_rel cfg a url (uenv a) fid fid2 with
      ⟨evs, he1, he2⟩ | ⟨evs, evs2, he1, he2⟩
    · cases f2 with
      | zero =>
        rw [herrlast fid a evs he1, herrlast fid2 a evs he2]
        exact Or.inl ⟨rfl, rfl, rfl, rfl⟩
      | succ f3 =>
        rw [herrstep fid a f3 evs he1, herrstep fid2 a f3 evs he2]
        rcases ih (a + 1) with ⟨k1, k2, k3, k4⟩ | ⟨k1, k2, k3, k4⟩
        · exact Or.inl ⟨k1, k2, k3, k4⟩
        · exact Or.inr ⟨k1, k2, k3, k4⟩
    · rw [hokstep fid a f2 _ evs he1, hokstep fid2 a f2 _ evs2 he2]
      exact Or.inr ⟨rfl, rfl, rfl, rfl⟩

/-- `uploadImageToStorage` with different fresh ids. -/
theorem uploadImageToStorage_indep (cfg : AppwriteConfig) (url : String)
    (uenv : Nat → AttemptEnv) (fid fid2 : Nat) :
    ((uploadImageToStorage cfg url uenv fid).2.2 = none ∧
      (uploadImageToStorage cfg url uenv fid2).2.2 = none ∧
      (uploadImageToStorage cfg url uenv fid).1 = url ∧
      (uploadImageToStorage cfg url uenv fid2).1 = url) ∨
    ((uploadImageToStorage cfg url uenv fid).2.2 = some fid ∧
      (uploadImageToStorage cfg url uenv fid2).2.2 = some fid2 ∧
      (uploadImageToStorage cfg url uenv fid).1 = getFileView cfg fid ∧
      (uploadImageToStorage cfg url uenv fid2).1 =
        getFileView cfg fid2) :=
  uploadGo_indep cfg url uenv fid fid2 3 1

/-- Every remote CRUD operation of the run succeeds (image fetches are
unconstrained). -/
def SuccessEnv (env : SeedEnv) : Prop :=
  env.listCatsOk = true ∧ env.listCussOk = true ∧
  env.listMenuOk = true ∧ env.listMenuCusOk = true ∧
  env.listFilesOk = true ∧
  (∀ id, env.delCatOk id = true) ∧ (∀ id, env.delCusOk id = true) ∧
  (∀ id, env.delMenuOk id = true) ∧ (∀ id, env.delMenuCusOk id = true) ∧
  (∀ id, env.delFileOk id = true) ∧
  (∀ n, env.createCatOk n = true) ∧ (∀ n, env.createCusOk n = true) ∧
  (∀ n, env.createMenuOk n = true) ∧
  (∀ n j, env.createJoinOk n j = true)

/-- A store with empty collections and bucket and fresh-id counter
`b`. -/
def emptyAt (b : Nat) : Store := ⟨[], [], [], [], [], b⟩

/-- When everything succeeds, the clear phase empties the store and
keeps the id counter. -/
theorem clearPhase_success (env : SeedEnv) (s : Store)
    (h : SuccessEnv env) :
    clearPhase env s = ⟨emptyAt s.nextId,
      [.clearedCollection 0, .clearedCollection 1, .clearedCollection 2,
        .clearedCollection 3, .clearedStorage], true⟩ := by
  obtain ⟨h1, h2, h3, h4, h5, hd1, hd2, hd3, hd4, hd5, -⟩ := h
  have hca : ∀ (α : Type) (delOk : Nat → Bool)
      (docs : List (Nat × α)), (∀ id, delOk id = true) →
      clearAll true delOk docs = ([], true) := by
    intro α delOk docs hall
    unfold clearAll
    simp [List.filter_eq_nil_iff, List.all_eq_true, hall]
  have hcs : ∀ (delOk : Nat → Bool) (files : List Nat),
      (∀ id, delOk id = true) →
      clearStorage true delOk files = ([], true) := by
    intro delOk files hall
    unfold clearStorage
    simp [List.filter_eq_nil_iff, List.all_eq_true, hall]
  simp only [clearPhase, h1, h2, h3, h4, h5,
    hca _ env.delCatOk s.categories hd1,
    hca _ env.delCusOk s.customizations hd2,
    hca _ env.delMenuOk s.menu hd3,
    hca _ env.delMenuCusOk s.menuCus hd4,
    hcs env.delFileOk s.files hd5]
  rfl

/-- The three creation phases of the run, started from an empty store
with fresh-id counter `b`. -/
def runFrom (cfg : AppwriteConfig) (data : DummyData) (env : SeedEnv)
    (b : Nat) : SeedRes :=
  processItems cfg env
    (createCategories env data.categories 0 (emptyAt b) []).map
    (createCustomizations env data.customizations 0
      (createCategories env data.categories 0 (emptyAt b) []).store []).map
    data.menu 0
    (createCustomizations env data.customizations 0
      (createCategories env data.categories 0 (emptyAt b) []).store []).store

/-- Under a success environment, a seed run is a clear followed by the
creation phases from the emptied store, provided the creation phases
succeed. -/
theorem seed_success_store (cfg : AppwriteConfig) (data : DummyData)
    (env : SeedEnv) (s : Store) (h : SuccessEnv env)
    (hcat : (createCategories env data.categories 0
      (emptyAt s.nextId) []).ok = true)
    (hcus : (createCustomizations env data.customizations 0
      (createCategories env data.categories 0
        (emptyAt s.nextId) []).store []).ok = true) :
    (seed cfg data env s).store = (runFrom cfg data env s.nextId).store ∧
    (seed cfg data env s).ok = (runFrom cfg data env s.nextId).ok := by
  have hc := clearPhase_success env s h
  have hres : seed cfg data env s =
      ⟨(runFrom cfg data env s.nextId).store,
        (clearPhase env s).events ++
          (createCategories env data.categories 0
            (emptyAt s.nextId) []).events ++
          (createCustomizations env data.customizations 0
            (createCategories env data.categories 0
              (emptyAt s.nextId) []).store []).events ++
          (runFrom cfg data env s.nextId).events,
        (runFrom cfg data env s.nextId).ok⟩ := by
    unfold runFrom
    simp [seed, hc, hcat, hcus]
  rw [hres]
  exact ⟨rfl, rfl⟩

theorem createCategories_success (env : SeedEnv) (cats : List Category)
    (idx : Nat) (s : Store) (m : List (String × Nat))
    (hok : ∀ n, env.createCatOk n = true) :
    (createCategories env cats idx s m).ok = true ∧
    (createCategories env cats idx s m).store.categories.length =
      s.categories.length + cats.length := by
  induction cats generalizing idx s m with
  | nil => simp [createCategories]
  | cons cat rest ih =>
    simp only [createCategories, hok idx, if_true]
    obtain ⟨hok2, hlen⟩ := ih (idx + 1)
      { s with
        categories := s.categories ++ [(s.nextId, cat)],
        nextId := s.nextId + 1 } ((cat.name, s.nextId) :: m)
    refine ⟨hok2, ?_⟩
    simp at hlen ⊢
    omega

theorem createCustomizations_success (env : SeedEnv)
    (cuss : List Customization) (idx : Nat) (s : Store)
    (m : List (String × Nat)) (hok : ∀ n, env.createCusOk n = true) :
    (createCustomizations env cuss idx s m).ok = true ∧
    (createCustomizations env cuss idx s m).store.customizations.length =
      s.customizations.length + cuss.length := by
  induction cuss generalizing idx s m with
  | nil => simp [createCustomizations]
  | cons cus rest ih =>
    simp only [createCustomizations, hok idx, if_true]
    obtain ⟨hok2, hlen⟩ := ih (idx + 1)
      { s with
        customizations := s.customizations ++ [(s.nextId, cus)],
        nextId := s.nextId + 1 } ((cus.name, s.nextId) :: m)
    refine ⟨hok2, ?_⟩
    simp at hlen ⊢
    omega

theorem createCategories_map_isSome (env : SeedEnv)
    (cats : List Category) (idx : Nat) (s : Store)
    (m : List (String × Nat)) (hok : ∀ n, env.createCatOk n = true)
    (nm : String) :
    (List.lookup nm (createCategories env cats idx s m).map).isSome =
      true ↔
    (nm ∈ cats.map Category.name ∨
      (List.lookup nm m).isSome = true) := by
  induction cats generalizing idx s m with
  | nil => simp [createCategories]
  | cons cat rest ih =>
    simp only [createCategories, hok idx, if_true]
    rw [ih (idx + 1) _ ((cat.name, s.nextId) :: m)]
    by_cases hnm : nm = cat.name
    · subst hnm
      simp [List.lookup]
    · have hbeq : (nm == cat.name) = false := by simp [hnm]
      simp [List.lookup, hbeq, hnm]

theorem createCustomizations_map_isSome (env : SeedEnv)
    (cuss : List Customization) (idx : Nat) (s : Store)
    (m : List (String × Nat)) (hok : ∀ n, env.createCusOk n = true)
    (nm : String) :
    (List.lookup nm (createCustomizations env cuss idx s m).map).isSome =
      true ↔
    (nm ∈ cuss.map Customization.name ∨
      (List.lookup nm m).isSome = true) := by
  induction cuss generalizing idx s m with
  | nil => simp [createCustomizations]
  | cons cus rest ih =>
    simp only [createCustomizations, hok idx, if_true]
    rw [ih (idx + 1) _ ((cus.name, s.nextId) :: m)]
    by_cases hnm : nm = cus.name
    · subst hnm
      simp [List.lookup]
    · have hbeq : (nm == cus.name) = false := by simp [hnm]
      simp [List.lookup, hbeq, hnm]

theorem expectedJoins_length_all_ok (env : SeedEnv)
    (cusMap : List (String × Nat)) (i docId : Nat)
    (names : List String) (j : Nat)
    (hjok : ∀ k, env.createJoinOk i k = true) :
    (expectedJoins env cusMap i docId names j).length =
      (names.filter
        (fun nm => (List.lookup nm cusMap).isSome)).length := by
  induction names generalizing j with
  | nil => simp [expectedJoins]
  | cons nm rest ih =>
    unfold expectedJoins
    rcases hl : List.lookup nm cusMap with _ | cusId
    · simp [List.filter_cons, hl, ih (j + 1)]
    · rw [hjok j]
      simp [List.filter_cons, hl, ih (j + 1)]

/-- A successful item step: it succeeds and emits exactly one menu
creation and one join creation per resolvable listed customization. -/
theorem processItem_success_counts (cfg : AppwriteConfig)
    (env : SeedEnv) (catMap cusMap : List (String × Nat)) (i : Nat)
    (item : MenuItem) (s : Store) (catId : Nat)
    (hcat : List.lookup item.category_name catMap = some catId)
    (hmok : env.createMenuOk i = true)
    (hjok : ∀ k, env.createJoinOk i k = true) :
    (processItem cfg env catMap cusMap i item s).ok = true ∧
    countEv isCreatedMenuEv
      (processItem cfg env catMap cusMap i item s).events = 1 ∧
    countEv isCreatedJoinEv
      (processItem cfg env catMap cusMap i item s).events =
      (item.customizations.filter
        (fun nm => (List.lookup nm cusMap).isSome)).length := by
  rcases hup : (uploadImageToStorage cfg item.image_url (env.upload i)
      s.nextId).2.2 with _ | fid
  · have hres : processItem cfg env catMap cusMap i item s =
        ⟨(createJoins env cusMap i s.nextId item.customizations 0
            { s with
              menu := s.menu ++ [(s.nextId,
                ⟨item.name, item.description,
                  .external (uploadImageToStorage cfg item.image_url
                    (env.upload i) s.nextId).1, item.price, item.rating,
                  item.calories, item.protein, catId⟩)],
              nextId := s.nextId + 1 }).1,
          .uploadTrace i (uploadImageToStorage cfg item.image_url
              (env.upload i) s.nextId).2.1 ::
            .createdMenu i item.name ::
            (createJoins env cusMap i s.nextId item.customizations 0
              { s with
                menu := s.menu ++ [(s.nextId,
                  ⟨item.name, item.description,
                    .external (uploadImageToStorage cfg item.image_url
                      (env.upload i) s.nextId).1, item.price,
                    item.rating, item.calories, item.protein, catId⟩)],
                nextId := s.nextId + 1 }).2, true⟩ := by
      simp [processItem, hcat, hmok, hup]
    obtain ⟨hc1, hc2⟩ := createJoins_join_count env cusMap i s.nextId
      item.customizations 0
      { s with
        menu := s.menu ++ [(s.nextId,
          ⟨item.name, item.description,
            .external (uploadImageToStorage cfg item.image_url
              (env.upload i) s.nextId).1, item.price, item.rating,
            item.calories, item.protein, catId⟩)],
        nextId := s.nextId + 1 }
    rw [hres]
    refine ⟨rfl, ?_, ?_⟩
    · rw [countEv_cons_false _ _ _ rfl, countEv_cons_true _ _ _ rfl, hc2]
    · rw [countEv_cons_false _ _ _ rfl, countEv_cons_false _ _ _ rfl,
        hc1, expectedJoins_length_all_ok env cusMap i _ _ _ hjok]
  · have hres : processItem cfg env catMap cusMap i item s =
        ⟨(createJoins env cusMap i (s.nextId + 1) item.customizations 0
            { s with
              files := s.files ++ [fid],
              menu := s.menu ++ [(s.nextId + 1,
                ⟨item.name, item.description, .stored fid, item.price,
                  item.rating, item.calories, item.protein, catId⟩)],
              nextId := s.nextId + 1 + 1 }).1,
          .uploadTrace i (uploadImageToStorage cfg item.image_url
              (env.upload i) s.nextId).2.1 ::
            .createdMenu i item.name ::
            (createJoins env cusMap i (s.nextId + 1)
              item.customizations 0
              { s with
                files := s.files ++ [fid],
                menu := s.menu ++ [(s.nextId + 1,
                  ⟨item.name, item.description, .stored fid, item.price,
                    item.rating, item.calories, item.protein, catId⟩)],
                nextId := s.nextId + 1 + 1 }).2, true⟩ := by
      simp [processItem, hcat, hmok, hup]
    obtain ⟨hc1, hc2⟩ := createJoins_join_count env cusMap i
      (s.nextId + 1) item.customizations 0
      { s with
        files := s.files ++ [fid],
        menu := s.menu ++ [(s.nextId + 1,
          ⟨item.name, item.description, .stored fid, item.price,
            item.rating, item.calories, item.protein, catId⟩)],
        nextId := s.nextId + 1 + 1 }
    rw [hres]
    refine ⟨rfl, ?_, ?_⟩
    · rw [countEv_cons_false _ _ _ rfl, countEv_cons_true _ _ _ rfl, hc2]
    · rw [countEv_cons_false _ _ _ rfl, countEv_cons_false _ _ _ rfl,
        hc1, expectedJoins_length_all_ok env cusMap i _ _ _ hjok]

/-- A successful menu phase: everything is created, with exact menu and
join counts. -/
theorem processItems_success (cfg : AppwriteConfig) (env : SeedEnv)
    (catMap cusMap : List (String × Nat)) (items : List MenuItem)
    (base : Nat) (s : Store)
    (hcat : ∀ item ∈ items, (List.lookup item.category_name
      catMap).isSome = true)
    (hmok : ∀ n, env.createMenuOk n = true)
    (hjok : ∀ n j, env.createJoinOk n j = true) :
    (processItems cfg env catMap cusMap items base s).ok = true ∧
    (processItems cfg env catMap cusMap items base s).store.menu.length =
      s.menu.length + items.length ∧
    (processItems cfg env catMap cusMap items base
        s).store.menuCus.length =
      s.menuCus.length + (items.map (fun item =>
        (item.customizations.filter
          (fun nm => (List.lookup nm cusMap).isSome)).length)).sum := by
  induction items generalizing base s with
  | nil => simp [processItems]
  | cons item rest ih =>
    obtain ⟨catId, hcatId⟩ : ∃ catId,
        List.lookup item.category_name catMap = some catId := by
      have := hcat item (List.mem_cons_self item rest)
      rcases hl : List.lookup item.category_name catMap with _ | cid
      · rw [hl] at this
        simp at this
      · exact ⟨cid, rfl⟩
    obtain ⟨pok, pm, pj⟩ := processItem_success_counts cfg env catMap
      cusMap base item s catId hcatId (hmok base) (hjok base)
    obtain ⟨e1, e2, e3, e4⟩ := processItem_evolution cfg env catMap
      cusMap base item s
    have hres : processItems cfg env catMap cusMap (item :: rest) base s
        = ⟨(processItems cfg env catMap cusMap rest (base + 1)
            (processItem cfg env catMap cusMap base item s).store).store,
          (processItem cfg env catMap cusMap base item s).events ++
            (processItems cfg env catMap cusMap rest (base + 1)
              (processItem cfg env catMap cusMap base item
                s).store).events,
          (processItems cfg env catMap cusMap rest (base + 1)
            (processItem cfg env catMap cusMap base item
              s).store).ok⟩ := by
      simp [processItems, pok]
    obtain ⟨f1, f2, f3⟩ := ih (base + 1)
      (processItem cfg env catMap cusMap base item s).store
      (fun it hit => hcat it (List.mem_cons_of_mem item hit))
    rw [hres]
    refine ⟨f1, ?_, ?_⟩
    · rw [f2, e3, pm]
      simp
      omega
    · rw [f3, e4, pj]
      simp
      omega

/-! Shifting every store-assigned identifier by a constant: two seed
runs differ exactly by such a shift of their fresh-id bases. -/

def shiftRef (δ : Nat) : ImageRef → ImageRef
  | .stored fid => .stored (fid + δ)
  | .external u => .external u

def shiftMenuDoc (δ : Nat) (d : MenuDoc) : MenuDoc :=
  { d with image := shiftRef δ d.image, categories := d.categories + δ }

def shiftStore (δ : Nat) (st : Store) : Store :=
  ⟨st.categories.map (fun p => (p.1 + δ, p.2)),
    st.customizations.map (fun p => (p.1 + δ, p.2)),
    st.menu.map (fun p => (p.1 + δ, shiftMenuDoc δ p.2)),
    st.menuCus.map (fun p =>
      (p.1 + δ, ⟨p.2.menu + δ, p.2.customizations + δ⟩)),
    st.files.map (· + δ),
    st.nextId + δ⟩

def shiftMap (δ : Nat) (m : List (String × Nat)) : List (String × Nat) :=
  m.map (fun p => (p.1, p.2 + δ))

theorem lookup_shiftMap (δ : Nat) (m : List (String × Nat))
    (nm : String) :
    List.lookup nm (shiftMap δ m) = (List.lookup nm m).map (· + δ) := by
  induction m with
  | nil => rfl
  | cons p rest ih =>
    rcases p with ⟨k, v⟩
    cases hbeq : nm == k <;>
      simp [shiftMap, List.lookup, hbeq] at ih ⊢ <;> exact ih

theorem createCategories_shift (env : SeedEnv) (cats : List Category)
    (idx : Nat) (s : Store) (m : List (String × Nat)) (δ : Nat) :
    createCategories env cats idx (shiftStore δ s) (shiftMap δ m) =
      ⟨shiftStore δ (createCategories env cats idx s m).store,
        shiftMap δ (createCategories env cats idx s m).map,
        (createCategories env cats idx s m).events,
        (createCategories env cats idx s m).ok⟩ := by
  induction cats generalizing idx s m with
  | nil => rfl
  | cons cat rest ih =>
    by_cases hc : env.createCatOk idx = true
    · have hs1 : { shiftStore δ s with
          categories := (shiftStore δ s).categories ++
            [((shiftStore δ s).nextId, cat)],
          nextId := (shiftStore δ s).nextId + 1 } =
        shiftStore δ { s with
          categories := s.categories ++ [(s.nextId, cat)],
          nextId := s.nextId + 1 } := by
        simp [shiftStore, Store.mk.injEq]
        omega
      have hm1 : ((cat.name, (shiftStore δ s).nextId) :: shiftMap δ m) =
          shiftMap δ ((cat.name, s.nextId) :: m) := by
        simp [shiftMap, shiftStore]
      simp only [createCategories, hc, if_true]
      rw [hs1, hm1, ih]
    · simp [createCategories, hc]

theorem createCustomizations_shift (env : SeedEnv)
    (cuss : List Customization) (idx : Nat) (s : Store)
    (m : List (String × Nat)) (δ : Nat) :
    createCustomizations env cuss idx (shiftStore δ s) (shiftMap δ m) =
      ⟨shiftStore δ (createCustomizations env cuss idx s m).store,
        shiftMap δ (createCustomizations env cuss idx s m).map,
        (createCustomizations env cuss idx s m).events,
        (createCustomizations env cuss idx s m).ok⟩ := by
  induction cuss generalizing idx s m with
  | nil => rfl
  | cons cus rest ih =>
    by_cases hc : env.createCusOk idx = true
    · have hs1 : { shiftStore δ s with
          customizations := (shiftStore δ s).customizations ++
            [((shiftStore δ s).nextId, cus)],
          nextId := (shiftStore δ s).nextId + 1 } =
        shiftStore δ { s with
          customizations := s.customizations ++ [(s.nextId, cus)],
          nextId := s.nextId + 1 } := by
        simp [shiftStore, Store.mk.injEq]
        omega
      have hm1 : ((cus.name, (shiftStore δ s).nextId) :: shiftMap δ m) =
          shiftMap δ ((cus.name, s.nextId) :: m) := by
        simp [shiftMap, shiftStore]
      simp only [createCustomizations, hc, if_true]
      rw [hs1, hm1, ih]
    · simp [createCustomizations, hc]

theorem createJoins_shift (env : SeedEnv) (cusMap : List (String × Nat))
    (i docId : Nat) (names : List String) (j : Nat) (s : Store)
    (δ : Nat) :
    createJoins env (shiftMap δ cusMap) i (docId + δ) names j
        (shiftStore δ s) =
      (shiftStore δ (createJoins env cusMap i docId names j s).1,
        (createJoins env cusMap i docId names j s).2) := by
  induction names generalizing j s with
  | nil => rfl
  | cons nm rest ih =>
    rcases hl : List.lookup nm cusMap with _ | cusId
    · have hl2 : List.lookup nm (shiftMap δ cusMap) = none := by
        rw [lookup_shiftMap, hl]
        rfl
      simp only [createJoins, hl, hl2]
      rw [ih]
    · have hl2 : List.lookup nm (shiftMap δ cusMap) = some (cusId + δ) := by
        rw [lookup_shiftMap, hl]
        rfl
      by_cases hj : env.createJoinOk i j = true
      · have hs1 : { shiftStore δ s with
            menuCus := (shiftStore δ s).menuCus ++
              [((shiftStore δ s).nextId,
                ⟨docId + δ, cusId + δ⟩)],
            nextId := (shiftStore δ s).nextId + 1 } =
          shiftStore δ { s with
            menuCus := s.menuCus ++ [(s.nextId, ⟨docId, cusId⟩)],
            nextId := s.nextId + 1 } := by
          simp [shiftStore, Store.mk.injEq]
          omega
        simp only [createJoins, hl, hl2, hj, if_true]
        rw [hs1, ih]
      · simp [createJoins, hl, hl2, hj, ih]

theorem processItem_shift (cfg : AppwriteConfig) (env : SeedEnv)
    (catMap cusMap : List (String × Nat)) (i : Nat) (item : MenuItem)
    (s : Store) (δ : Nat) :
    (processItem cfg env (shiftMap δ catMap) (shiftMap δ cusMap) i item
        (shiftStore δ s)).store =
      shiftStore δ (processItem cfg env catMap cusMap i item s).store ∧
    (processItem cfg env (shiftMap δ catMap) (shiftMap δ cusMap) i item
        (shiftStore δ s)).ok =
      (processItem cfg env catMap cusMap i item s).ok := by
  rcases uploadImageToStorage_indep cfg item.image_url (env.upload i)
      (s.nextId + δ) s.nextId with ⟨u1, u2, u3, u4⟩ | ⟨u1, u2, u3, u4⟩
  all_goals
    have u1' : (uploadImageToStorage cfg item.image_url (env.upload i)
      ((shiftStore δ s).nextId)).2.2 =
        (uploadImageToStorage cfg item.image_url (env.upload i)
          (s.nextId + δ)).2.2 := rfl
  all_goals
    have u3' : (uploadImageToStorage cfg item.image_url (env.upload i)
      ((shiftStore δ s).nextId)).1 =
        (uploadImageToStorage cfg item.image_url (env.upload i)
          (s.nextId + δ)).1 := rfl
  · rcases hl : List.lookup item.category_name catMap with _ | catId
    · have hl2 : List.lookup item.category_name (shiftMap δ catMap)
          = none := by
        rw [lookup_shiftMap, hl]
        rfl
      constructor <;>
        simp [processItem, hl, hl2, u1', u1, u2]
    · have hl2 : List.lookup item.category_name (shiftMap δ catMap)
          = some (catId + δ) := by
        rw [lookup_shiftMap, hl]
        rfl
      by_cases hm : env.createMenuOk i = true
      · have hresR : (processItem cfg env catMap cusMap i item s).store
            = (createJoins env cusMap i s.nextId item.customizations 0
              { s with
                menu := s.menu ++ [(s.nextId,
                  ⟨item.name, item.description,
                    .external item.image_url, item.price, item.rating,
                    item.calories, item.protein, catId⟩)],
                nextId := s.nextId + 1 }).1 ∧
            (processItem cfg env catMap cusMap i item s).ok = true := by
          constructor <;> simp [processItem, hl, hm, u2, u4]
        have hresL : (processItem cfg env (shiftMap δ catMap)
              (shiftMap δ cusMap) i item (shiftStore δ s)).store
            = (createJoins env (shiftMap δ cusMap) i (s.nextId + δ)
              item.customizations 0 (shiftStore δ
              { s with
                menu := s.menu ++ [(s.nextId,
                  ⟨item.name, item.description,
                    .external item.image_url, item.price, item.rating,
                    item.calories, item.protein, catId⟩)],
                nextId := s.nextId + 1 })).1 ∧
            (processItem cfg env (shiftMap δ catMap) (shiftMap δ cusMap)
              i item (shiftStore δ s)).ok = true := by
          constructor <;>
            simp [processItem, hl2, hm, u1', u3', u1, u3, shiftStore,
              shiftMenuDoc, shiftRef, Nat.add_right_comm]
        have hcj := createJoins_shift env cusMap i s.nextId
          item.customizations 0
          { s with
            menu := s.menu ++ [(s.nextId,
              ⟨item.name, item.description, .external item.image_url,
                item.price, item.rating, item.calories, item.protein,
                catId⟩)],
            nextId := s.nextId + 1 } δ
        refine ⟨?_, by rw [hresL.2, hresR.2]⟩
        rw [hresL.1, hresR.1, hcj]
      · constructor <;>
          simp [processItem, hl, hl2, hm, u1', u1, u2]
  · rcases hl : List.lookup item.category_name catMap with _ | catId
    · have hl2 : List.lookup item.category_name (shiftMap δ catMap)
          = none := by
        rw [lookup_shiftMap, hl]
        rfl
      constructor <;>
        simp [processItem, hl, hl2, u1', u1, u2, shiftStore,
          Store.mk.injEq] <;> omega
    · have hl2 : List.lookup item.category_name (shiftMap δ catMap)
          = some (catId + δ) := by
        rw [lookup_shiftMap, hl]
        rfl
      by_cases hm : env.createMenuOk i = true
      · have hresR : (processItem cfg env catMap cusMap i item s).store
            = (createJoins env cusMap i (s.nextId + 1)
              item.customizations 0
              { s with
                files := s.files ++ [s.nextId],
                menu := s.menu ++ [(s.nextId + 1,
                  ⟨item.name, item.description, .stored s.nextId,
                    item.price, item.rating, item.calories,
                    item.protein, catId⟩)],
                nextId := s.nextId + 1 + 1 }).1 ∧
            (processItem cfg env catMap cusMap i item s).ok = true := by
          constructor <;> simp [processItem, hl, hm, u2]
        have hresL : (processItem cfg env (shiftMap δ catMap)
              (shiftMap δ cusMap) i item (shiftStore δ s)).store
            = (createJoins env (shiftMap δ cusMap) i (s.nextId + 1 + δ)
              item.customizations 0 (shiftStore δ
              { s with
                files := s.files ++ [s.nextId],
                menu := s.menu ++ [(s.nextId + 1,
                  ⟨item.name, item.description, .stored s.nextId,
                    item.price, item.rating, item.calories,
                    item.protein, catId⟩)],
                nextId := s.nextId + 1 + 1 })).1 ∧
            (processItem cfg env (shiftMap δ catMap) (shiftMap δ cusMap)
              i item (shiftStore δ s)).ok = true := by
          constructor <;>
            simp [processItem, hl2, hm, u1', u1, shiftStore,
              shiftMenuDoc, shiftRef, Nat.add_right_comm]
        have hcj := createJoins_shift env cusMap i (s.nextId + 1)
          item.customizations 0
          { s with
            files := s.files ++ [s.nextId],
            menu := s.menu ++ [(s.nextId + 1,
              ⟨item.name, item.description, .stored s.nextId,
                item.price, item.rating, item.calories, item.protein,
                catId⟩)],
            nextId := s.nextId + 1 + 1 } δ
        refine ⟨?_, by rw [hresL.2, hresR.2]⟩
        rw [hresL.1, hresR.1, hcj]
      · constructor <;>
          simp [processItem, hl, hl2, hm, u1', u1, u2, shiftStore,
            Store.mk.injEq] <;> omega

theorem processItems_shift (cfg : AppwriteConfig) (env : SeedEnv)
    (catMap cusMap : List (String × Nat)) (items : List MenuItem)
    (base : Nat) (s : Store) (δ : Nat) :
    (processItems cfg env (shiftMap δ catMap) (shiftMap δ cusMap) items
        base (shiftStore δ s)).store =
      shiftStore δ (processItems cfg env catMap cusMap items base
        s).store ∧
    (processItems cfg env (shiftMap δ catMap) (shiftMap δ cusMap) items
        base (shiftStore δ s)).ok =
      (processItems cfg env catMap cusMap items base s).ok := by
  induction items generalizing base s with
  | nil => exact ⟨rfl, rfl⟩
  | cons item rest ih =>
    obtain ⟨hps, hpo⟩ := processItem_shift cfg env catMap cusMap base
      item s δ
    by_cases hok : (processItem cfg env catMap cusMap base item s).ok
        = true
    · have hok2 : (processItem cfg env (shiftMap δ catMap)
          (shiftMap δ cusMap) base item (shiftStore δ s)).ok = true := by
        rw [hpo]
        exact hok
      obtain ⟨ihs, iho⟩ := ih (base + 1)
        (processItem cfg env catMap cusMap base item s).store
      constructor
      · simp only [processItems, hok, hok2, if_true]
        rw [hps, ihs]
      · simp only [processItems, hok, hok2, if_true]
        rw [hps, iho]
    · have hok2 : ¬ (processItem cfg env (shiftMap δ catMap)
          (shiftMap δ cusMap) base item (shiftStore δ s)).ok = true := by
        rw [hpo]
        exact hok
      constructor
      · simp only [processItems, hok, hok2, if_false]
        exact hps
      · simp [processItems, hok, hok2]

theorem runFrom_shift (cfg : AppwriteConfig) (data : DummyData)
    (env : SeedEnv) (b δ : Nat) :
    (runFrom cfg data env (b + δ)).store =
      shiftStore δ (runFrom cfg data env b).store ∧
    (runFrom cfg data env (b + δ)).ok = (runFrom cfg data env b).ok := by
  have h1 : createCategories env data.categories 0 (emptyAt (b + δ)) []
      = ⟨shiftStore δ (createCategories env data.categories 0
            (emptyAt b) []).store,
          shiftMap δ (createCategories env data.categories 0
            (emptyAt b) []).map,
          (createCategories env data.categories 0 (emptyAt b) []).events,
          (createCategories env data.categories 0 (emptyAt b) []).ok⟩ :=
    createCategories_shift env data.categories 0 (emptyAt b) [] δ
  have h2 : createCustomizations env data.customizations 0
      (shiftStore δ (createCategories env data.categories 0
        (emptyAt b) []).store) []
      = ⟨shiftStore δ (createCustomizations env data.customizations 0
            (createCategories env data.categories 0
              (emptyAt b) []).store []).store,
          shiftMap δ (createCustomizations env data.customizations 0
            (createCategories env data.categories 0
              (emptyAt b) []).store []).map,
          (createCustomizations env data.customizations 0
            (createCategories env data.categories 0
              (emptyAt b) []).store []).events,
          (createCustomizations env data.customizations 0
            (createCategories env data.categories 0
              (emptyAt b) []).store []).ok⟩ :=
    createCustomizations_shift env data.customizations 0
      (createCategories env data.categories 0 (emptyAt b) []).store [] δ
  have h3 := processItems_shift cfg env
    (createCategories env data.categories 0 (emptyAt b) []).map
    (createCustomizations env data.customizations 0
      (createCategories env data.categories 0 (emptyAt b) []).store
      []).map data.menu 0
    (createCustomizations env data.customizations 0
      (createCategories env data.categories 0 (emptyAt b) []).store
      []).store δ
  constructor
  · simp only [runFrom]
    rw [h1]
    dsimp only
    rw [h2]
    dsimp only
    rw [h3.1]
  · simp only [runFrom]
    rw [h1]
    dsimp only
    rw [h2]
    dsimp only
    rw [h3.2]

theorem createJoins_categories (env : SeedEnv)
    (cusMap : List (String × Nat)) (i docId : Nat)
    (names : List String) (j : Nat) (s : Store) :
    (createJoins env cusMap i docId names j s).1.categories =
      s.categories :=
  (createJoins_store env cusMap i docId names j s).2.1

theorem createJoins_customizations (env : SeedEnv)
    (cusMap : List (String × Nat)) (i docId : Nat)
    (names : List String) (j : Nat) (s : Store) :
    (createJoins env cusMap i docId names j s).1.customizations =
      s.customizations :=
  (createJoins_store env cusMap i docId names j s).2.2.1

/-- The menu-item loop never touches the category or customization
collections. -/
theorem processItem_preserves (cfg : AppwriteConfig) (env : SeedEnv)
    (catMap cusMap : List (String × Nat)) (i : Nat) (item : MenuItem)
    (s : Store) :
    (processItem cfg env catMap cusMap i item s).store.categories =
      s.categories ∧
    (processItem cfg env catMap cusMap i item s).store.customizations =
      s.customizations := by
  rcases hup : (uploadImageToStorage cfg item.image_url (env.upload i)
      s.nextId).2.2 with _ | fid <;>
    rcases hl : List.lookup item.category_name catMap with _ | catId <;>
    by_cases hm : env.createMenuOk i = true <;>
    constructor <;>
    simp [processItem, hup, hl, hm, createJoins_categories,
      createJoins_customizations]

theorem processItems_preserves (cfg : AppwriteConfig) (env : SeedEnv)
    (catMap cusMap : List (String × Nat)) (items : List MenuItem)
    (base : Nat) (s : Store) :
    (processItems cfg env catMap cusMap items base s).store.categories =
      s.categories ∧
    (processItems cfg env catMap cusMap items base
      s).store.customizations = s.customizations := by
  induction items generalizing base s with
  | nil => exact ⟨rfl, rfl⟩
  | cons item rest ih =>
    obtain ⟨hp1, hp2⟩ := processItem_preserves cfg env catMap cusMap
      base item s
    by_cases hok : (processItem cfg env catMap cusMap base item s).ok
        = true
    · obtain ⟨ih1, ih2⟩ := ih (base + 1)
        (processItem cfg env catMap cusMap base item s).store
      constructor <;> simp [processItems, hok, ih1, ih2, hp1, hp2]
    · constructor <;> simp [processItems, hok, hp1, hp2]

/-! ### The logical end state of the remote store

Ids are assigned by the store at creation time, so two runs produce
stores that agree only up to the choice of ids.  The logical view
forgets the opaque ids: collections become their document lists, the
menu's category reference is resolved back to the category name, a
managed stored image is abstracted to "a managed copy" while an
external fallback keeps its URL, and join records become pairs of
resolved names. -/

theorem find?_map_shift {α β : Type} (δ : Nat) (f : α → β)
    (l : List (Nat × α)) (n : Nat) :
    (l.map (fun p => (p.1 + δ, f p.2))).find?
        (fun p => p.1 == n + δ) =
      (l.find? (fun p => p.1 == n)).map (fun p => (p.1 + δ, f p.2)) := by
  induction l with
  | nil => rfl
  | cons p rest ih =>
    have hbeq : (p.1 + δ == n + δ) = (p.1 == n) := by
      by_cases h : p.1 = n <;> simp [h] <;> omega
    cases hb : (p.1 == n) <;>
      simp [List.find?_cons, hbeq, hb, ih]

theorem find?_map_shift_id {α : Type} (δ : Nat) (l : List (Nat × α))
    (n : Nat) :
    (l.map (fun p => (p.1 + δ, p.2))).find? (fun p => p.1 == n + δ) =
      (l.find? (fun p => p.1 == n)).map (fun p => (p.1 + δ, p.2)) :=
  find?_map_shift δ (fun x => x) l n

/-- The category name a category id resolves to (if any). -/
def catNameOf (st : Store) (id : Nat) : Option String :=
  (st.categories.find? (fun p => p.1 == id)).map (fun p => p.2.name)

/-- The customization name a customization id resolves to (if any). -/
def cusNameOf (st : Store) (id : Nat) : Option String :=
  (st.customizations.find? (fun p => p.1 == id)).map (fun p => p.2.name)

/-- The menu-item name a menu document id resolves to (if any). -/
def menuNameOf (st : Store) (id : Nat) : Option String :=
  (st.menu.find? (fun p => p.1 == id)).map (fun p => p.2.name)

/-- The logical view of a menu document's image: a managed stored copy
(forgetting the opaque file id) or the external fallback URL. -/
def logicalImage : ImageRef → Option String
  | .stored _ => none
  | .external u => some u

/-- A menu document with opaque ids resolved away. -/
structure LogicalMenu where
  name : String
  description : String
  image : Option String
  price : Rat
  rating : Rat
  calories : Nat
  protein : Nat
  category : Option String
deriving Repr, DecidableEq

def logicalMenu (st : Store) (d : MenuDoc) : LogicalMenu :=
  ⟨d.name, d.description, logicalImage d.image, d.price, d.rating,
    d.calories, d.protein, catNameOf st d.categories⟩

/-- The id-independent logical end state of the remote store. -/
structure LogicalState where
  cats : List Category
  cuss : List Customization
  menu : List LogicalMenu
  joins : List (Option String × Option String)
  fileCount : Nat
deriving Repr, DecidableEq

def logicalState (st : Store) : LogicalState :=
  ⟨st.categories.map Prod.snd,
    st.customizations.map Prod.snd,
    st.menu.map (fun p => logicalMenu st p.2),
    st.menuCus.map (fun p =>
      (menuNameOf st p.2.menu, cusNameOf st p.2.customizations)),
    st.files.length⟩

theorem catNameOf_shift (δ : Nat) (st : Store) (n : Nat) :
    catNameOf (shiftStore δ st) (n + δ) = catNameOf st n := by
  simp only [catNameOf, shiftStore]
  rw [find?_map_shift_id]
  cases st.categories.find? (fun p => p.1 == n) <;> rfl

theorem cusNameOf_shift (δ : Nat) (st : Store) (n : Nat) :
    cusNameOf (shiftStore δ st) (n + δ) = cusNameOf st n := by
  simp only [cusNameOf, shiftStore]
  rw [find?_map_shift_id]
  cases st.customizations.find? (fun p => p.1 == n) <;> rfl

theorem menuNameOf_shift (δ : Nat) (st : Store) (n : Nat) :
    menuNameOf (shiftStore δ st) (n + δ) = menuNameOf st n := by
  simp only [menuNameOf, shiftStore]
  rw [find?_map_shift]
  cases st.menu.find? (fun p => p.1 == n) <;> rfl

theorem logicalMenu_shift (δ : Nat) (st : Store) (d : MenuDoc) :
    logicalMenu (shiftStore δ st) (shiftMenuDoc δ d) =
      logicalMenu st d := by
  cases hd : d.image <;>
    simp [logicalMenu, shiftMenuDoc, shiftRef, logicalImage, hd,
      LogicalMenu.mk.injEq, catNameOf_shift]

/-- Shifting every id leaves the logical state unchanged. -/
theorem logicalState_shift (δ : Nat) (st : Store) :
    logicalState (shiftStore δ st) = logicalState st := by
  unfold logicalState
  congr 1
  · show (st.categories.map (fun p => (p.1 + δ, p.2))).map Prod.snd = _
    rw [List.map_map]
    exact List.map_congr_left fun a _ => rfl
  · show (st.customizations.map
        (fun p => (p.1 + δ, p.2))).map Prod.snd = _
    rw [List.map_map]
    exact List.map_congr_left fun a _ => rfl
  · show (st.menu.map (fun p => (p.1 + δ, shiftMenuDoc δ p.2))).map
        (fun p => logicalMenu (shiftStore δ st) p.2) = _
    rw [List.map_map]
    exact List.map_congr_left fun a _ => logicalMenu_shift δ st a.2
  · show (st.menuCus.map (fun p =>
        (p.1 + δ, (⟨p.2.menu + δ, p.2.customizations + δ⟩ :
          MenuCusDoc)))).map
        (fun p => (menuNameOf (shiftStore δ st) p.2.menu,
          cusNameOf (shiftStore δ st) p.2.customizations)) = _
    rw [List.map_map]
    refine List.map_congr_left fun a _ => ?_
    show (menuNameOf (shiftStore δ st) (a.2.menu + δ),
        cusNameOf (shiftStore δ st) (a.2.customizations + δ)) = _
    rw [menuNameOf_shift, cusNameOf_shift]
  · show (st.files.map (· + δ)).length = _
    exact List.length_map _ _

/-- The number of resolvable menu-customization links in the dataset:
for each menu item, the listed customization names that the dataset
actually defines. -/
def resolvableLinkCount (data : DummyData) : Nat :=
  (data.menu.map (fun item =>
    (item.customizations.filter (fun nm =>
      (data.customizations.map Customization.name).contains nm)).length)).sum

/-- A full creation pipeline from an emptied store: it succeeds, and
every collection's document count equals the corresponding dataset
length (joins: the resolvable links), for any fresh-id base. -/
theorem runFrom_counts (cfg : AppwriteConfig) (data : DummyData)
    (env : SeedEnv) (b : Nat) (h : SuccessEnv env)
    (hcat : ∀ item ∈ data.menu,
      item.category_name ∈ data.categories.map Category.name) :
    (runFrom cfg data env b).ok = true ∧
    (runFrom cfg data env b).store.categories.length =
      data.categories.length ∧
    (runFrom cfg data env b).store.customizations.length =
      data.customizations.length ∧
    (runFrom cfg data env b).store.menu.length = data.menu.length ∧
    (runFrom cfg data env b).store.menuCus.length =
      resolvableLinkCount data := by
  have h' := h
  obtain ⟨-, -, -, -, -, -, -, -, -, -, hcok, hcuok, hmok, hjok⟩ := h'
  have hcat' : ∀ item ∈ data.menu, (List.lookup item.category_name
      (createCategories env data.categories 0
        (emptyAt b) []).map).isSome = true := by
    intro item hi
    rw [createCategories_map_isSome env data.categories 0 (emptyAt b) []
      hcok item.category_name]
    exact Or.inl (hcat item hi)
  have hpt : ∀ nm : String, (List.lookup nm (createCustomizations env
      data.customizations 0 (createCategories env data.categories 0
        (emptyAt b) []).store []).map).isSome =
      ((data.customizations.map Customization.name).contains nm) := by
    intro nm
    have hiff := createCustomizations_map_isSome env data.customizations
      0 (createCategories env data.categories 0 (emptyAt b) []).store []
      hcuok nm
    have hiff2 : (List.lookup nm (createCustomizations env
        data.customizations 0 (createCategories env data.categories 0
          (emptyAt b) []).store []).map).isSome = true ↔
        nm ∈ data.customizations.map Customization.name := by
      rw [hiff]
      simp [List.lookup]
    have hmem : ((data.customizations.map
        Customization.name).contains nm) = true ↔
        nm ∈ data.customizations.map Customization.name :=
      List.elem_iff
    cases hb : (List.lookup nm (createCustomizations env
        data.customizations 0 (createCategories env data.categories 0
          (emptyAt b) []).store []).map).isSome <;>
      cases hb2 : ((data.customizations.map
        Customization.name).contains nm)
    · rfl
    · exact absurd (hiff2.mpr (hmem.mp hb2)) (by simp [hb])
    · exact absurd hb2 (by rw [hmem.mpr (hiff2.mp hb)]; simp)
    · rfl
  have hsum : (data.menu.map (fun item =>
      (item.customizations.filter (fun nm => (List.lookup nm
        (createCustomizations env data.customizations 0
          (createCategories env data.categories 0 (emptyAt b) []).store
          []).map).isSome)).length)).sum = resolvableLinkCount data := by
    unfold resolvableLinkCount
    congr 1
    refine List.map_congr_left fun item _ => ?_
    congr 1
    exact List.filter_congr fun a _ => hpt a
  obtain ⟨hok, hmlen, hmclen⟩ := processItems_success cfg env
    (createCategories env data.categories 0 (emptyAt b) []).map
    (createCustomizations env data.customizations 0
      (createCategories env data.categories 0 (emptyAt b) []).store
      []).map data.menu 0
    (createCustomizations env data.customizations 0
      (createCategories env data.categories 0 (emptyAt b) []).store
      []).store hcat' hmok hjok
  obtain ⟨hpc, hpcu⟩ := processItems_preserves cfg env
    (createCategories env data.categories 0 (emptyAt b) []).map
    (createCustomizations env data.customizations 0
      (createCategories env data.categories 0 (emptyAt b) []).store
      []).map data.menu 0
    (createCustomizations env data.customizations 0
      (createCategories env data.categories 0 (emptyAt b) []).store
      []).store
  have hcatsE := createCategories_evolution env data.categories 0
    (emptyAt b) []
  have hcusE := createCustomizations_evolution env data.customizations 0
    (createCategories env data.categories 0 (emptyAt b) []).store []
  have hclen := (createCategories_success env data.categories 0
    (emptyAt b) [] hcok).2
  have hculen := (createCustomizations_success env data.customizations 0
    (createCategories env data.categories 0 (emptyAt b) []).store []
    hcuok).2
  refine ⟨hok, ?_, ?_, ?_, ?_⟩
  · simp only [runFrom]
    rw [hpc, hcusE.1, hclen]
    simp [emptyAt]
  · simp only [runFrom]
    rw [hpcu, hculen, hcatsE.1]
    simp [emptyAt]
  · simp only [runFrom]
    rw [hmlen, hcusE.2.1, hcatsE.2.1]
    simp [emptyAt]
  · simp only [runFrom]
    rw [hmclen, hcusE.2.2.1, hcatsE.2.2.1]
    simp only [emptyAt, List.length_nil, Nat.zero_add]
    exact hsum

/-- C4: When every remote-store operation succeeds and every menu
item's category name is defined by the dataset, running the seed
routine twice in succession leaves the remote store in the same
logical end state as running it once: both runs succeed, the logical
state (collections up to the store-assigned opaque ids, with menu
category references and join records resolved back to names and stored
images abstracted from their file ids) after the second run equals the
one after the first, and after either run each collection's document
count equals the corresponding input dataset length while the
menu-customization join count equals the number of resolvable links. -/
theorem claim4_seed_idempotent (cfg : AppwriteConfig) (data : DummyData)
    (env : SeedEnv) (s : Store) (h : SuccessEnv env)
    (hcat : ∀ item ∈ data.menu,
      item.category_name ∈ data.categories.map Category.name) :
    (seed cfg data env s).ok = true ∧
    (seed cfg data env (seed cfg data env s).store).ok = true ∧
    logicalState (seed cfg data env (seed cfg data env s).store).store =
      logicalState (seed cfg data env s).store ∧
    (seed cfg data env s).store.categories.length =
      data.categories.length ∧
    (seed cfg data env s).store.customizations.length =
      data.customizations.length ∧
    (seed cfg data env s).store.menu.length = data.menu.length ∧
    (seed cfg data env s).store.menuCus.length =
      resolvableLinkCount data ∧
    (seed cfg data env
      (seed cfg data env s).store).store.categories.length =
      data.categories.length ∧
    (seed cfg data env
      (seed cfg data env s).store).store.customizations.length =
      data.customizations.length ∧
    (seed cfg data env (seed cfg data env s).store).store.menu.length =
      data.menu.length ∧
    (seed cfg data env
      (seed cfg data env s).store).store.menuCus.length =
      resolvableLinkCount data := by
  have h' := h
  obtain ⟨-, -, -, -, -, -, -, -, -, -, hcok, hcuok, -, -⟩ := h'
  have hc1ok : ∀ b : Nat, (createCategories env data.categories 0
      (emptyAt b) []).ok = true := fun b =>
    (createCategories_success env data.categories 0 (emptyAt b) []
      hcok).1
  have hc2ok : ∀ b : Nat, (createCustomizations env data.customizations
      0 (createCategories env data.categories 0 (emptyAt b) []).store
      []).ok = true := fun b =>
    (createCustomizations_success env data.customizations 0
      (createCategories env data.categories 0 (emptyAt b) []).store []
      hcuok).1
  have hs1 := seed_success_store cfg data env s h (hc1ok s.nextId)
    (hc2ok s.nextId)
  have hr1 := runFrom_counts cfg data env s.nextId h hcat
  have hs2 := seed_success_store cfg data env (seed cfg data env s).store
    h (hc1ok (seed cfg data env s).store.nextId)
    (hc2ok (seed cfg data env s).store.nextId)
  have hr2 := runFrom_counts cfg data env
    (seed cfg data env s).store.nextId h hcat
  have hlog : logicalState (runFrom cfg data env
      (seed cfg data env s).store.nextId).store =
      logicalState (runFrom cfg data env s.nextId).store := by
    rcases Nat.le_total s.nextId (seed cfg data env s).store.nextId with
      hle | hle
    · obtain ⟨δ, hδ⟩ := Nat.le.dest hle
      rw [← hδ, (runFrom_shift cfg data env s.nextId δ).1,
        logicalState_shift]
    · obtain ⟨δ, hδ⟩ := Nat.le.dest hle
      rw [← hδ, (runFrom_shift cfg data env
        (seed cfg data env s).store.nextId δ).1, logicalState_shift]
  obtain ⟨hr1ok, hr1c, hr1cu, hr1m, hr1mc⟩ := hr1
  obtain ⟨hr2ok, hr2c, hr2cu, hr2m, hr2mc⟩ := hr2
  rw [← hs2.1, ← hs1.1] at hlog
  refine ⟨hs1.2.trans hr1ok, hs2.2.trans hr2ok, hlog, ?_, ?_, ?_, ?_,
    ?_, ?_, ?_, ?_⟩
  · rw [hs1.1]
    exact hr1c
  · rw [hs1.1]
    exact hr1cu
  · rw [hs1.1]
    exact hr1m
  · rw [hs1.1]
    exact hr1mc
  · rw [hs2.1]
    exact hr2c
  · rw [hs2.1]
    exact hr2cu
  · rw [hs2.1]
    exact hr2m
  · rw [hs2.1]
    exact hr2mc

/-- A dataset where every menu item's category is defined; one listed
customization (`"Bacon"`) is not, so only one link is resolvable. -/
def goodData : DummyData :=
  { categories := [⟨"Pizza", "pies"⟩],
    customizations := [⟨"Extra Cheese", 1, "topping"⟩],
    menu := [⟨"Margherita", "d", "http://img/m.png", 10, 4, 500, 20,
      "Pizza", ["Extra Cheese", "Bacon"]⟩] }

/-- Witness for C4: `allOkEnv` satisfies `SuccessEnv`, `goodData`
resolves every category, and the double-run conclusion holds from the
empty store. -/
theorem claim4_witness :
    SuccessEnv allOkEnv ∧
    (∀ item ∈ goodData.menu,
      item.category_name ∈ goodData.categories.map Category.name) ∧
    ((seed sampleCfg goodData allOkEnv emptyStore).ok = true ∧
      (seed sampleCfg goodData allOkEnv
        (seed sampleCfg goodData allOkEnv emptyStore).store).ok = true ∧
      logicalState (seed sampleCfg goodData allOkEnv
          (seed sampleCfg goodData allOkEnv emptyStore).store).store =
        logicalState (seed sampleCfg goodData allOkEnv
          emptyStore).store ∧
      (seed sampleCfg goodData allOkEnv
          emptyStore).store.categories.length =
        goodData.categories.length ∧
      (seed sampleCfg goodData allOkEnv
          emptyStore).store.customizations.length =
        goodData.customizations.length ∧
      (seed sampleCfg goodData allOkEnv emptyStore).store.menu.length =
        goodData.menu.length ∧
      (seed sampleCfg goodData allOkEnv
          emptyStore).store.menuCus.length =
        resolvableLinkCount goodData ∧
      (seed sampleCfg goodData allOkEnv
        (seed sampleCfg goodData allOkEnv
          emptyStore).store).store.categories.length =
        goodData.categories.length ∧
      (seed sampleCfg goodData allOkEnv
        (seed sampleCfg goodData allOkEnv
          emptyStore).store).store.customizations.length =
        goodData.customizations.length ∧
      (seed sampleCfg goodData allOkEnv
        (seed sampleCfg goodData allOkEnv
          emptyStore).store).store.menu.length =
        goodData.menu.length ∧
      (seed sampleCfg goodData allOkEnv
        (seed sampleCfg goodData allOkEnv
          emptyStore).store).store.menuCus.length =
        resolvableLinkCount goodData) := by
  have hS : SuccessEnv allOkEnv :=
    ⟨rfl, rfl, rfl, rfl, rfl, fun _ => rfl, fun _ => rfl, fun _ => rfl,
      fun _ => rfl, fun _ => rfl, fun _ => rfl, fun _ => rfl,
      fun _ => rfl, fun _ _ => rfl⟩
  have hC : ∀ item ∈ goodData.menu,
      item.category_name ∈ goodData.categories.map Category.name := by
    decide
  exact ⟨hS, hC,
    claim4_seed_idempotent sampleCfg goodData allOkEnv emptyStore hS hC⟩

end TryingFood
